import Mathlib

/-!
# tcpserver: a multi-port TCP echo service with process-wide response identifiers

Shallow embedding of `config/config.go` and `server/server.go`, and the properties of
the connection handler, the identifier counter, the configuration check and the
listeners.

* Wire data is Unicode text (`List Char`): the protocol carries UTF-8 text lines, and
  every string `json.Unmarshal` yields is valid UTF-8.
* `uint64` is a `Nat` reduced modulo `2 ^ 64` at every arithmetic step.
* A connection is a record of what the handler observes of it: the lines the peer sent
  (`scanner.Scan` delivers a line of fewer than 64 KiB and stops with `bufio.ErrTooLong`
  at a longer one), whether the stream ends with a read error, the outcome of each
  `Write`, every buffer handed to `Write`, and the number of `Close` calls.
* `idCounter` is shared by the handlers of all connections: a handler runs against a
  script of the increments the other handlers make between its own atomic steps
  (`Process.others`); the empty script is a handler running alone.
* `encoding/json` is a parameter of the handler (`JSON`), so that the properties of the
  loop hold for any behaviour of the library, failing `Marshal` included; `goJSON` is
  the library's behaviour on the two struct types of this program.
* `Start` and the goroutines it launches are a transition system whose events are chosen
  by the scheduler and the operating system.
-/

namespace TcpServer

/-- Text on the wire: the content of a `[]byte` holding UTF-8 text. -/
abbrev Bytes := List Char

/-! ## config/config.go -/

namespace config

/-- `type ServerConfig struct { Ports []int }` -/
structure ServerConfig where
  Ports : List Int
deriving DecidableEq, Repr

/-- `type Config struct { ServerConfig ServerConfig }` -/
structure Config where
  ServerConfig : config.ServerConfig
deriving DecidableEq, Repr

/-- `validateConfig`: `none` is the `nil` error. -/
def validateConfig (config : Config) : Option String :=
  if config.ServerConfig.Ports.length = 0 then
    some "at least one server port is required"
  else
    none

/-- `Load`, with `os.ReadFile` and `yaml.Unmarshal` as parameters. -/
def Load (readFile : String → Except String Bytes)
    (yamlUnmarshal : Bytes → Except String Config) (filename : String) :
    Except String Config :=
  match readFile filename with
  | .error err => .error ("error reading config file: " ++ err)
  | .ok data =>
    match yamlUnmarshal data with
    | .error err => .error ("error parsing config file: " ++ err)
    | .ok config =>
      match validateConfig config with
      | some err => .error ("invalid configuration: " ++ err)
      | none => .ok config

end config

/-! ## server/server.go: data -/

/-- Number of values of a `uint64`. -/
def uint64Size : Nat := 2 ^ 64

/-- `type Server struct { cfg config.ServerConfig; idCounter uint64 }` -/
structure Server where
  cfg : config.ServerConfig
  idCounter : Nat
deriving DecidableEq, Repr

/-- `type Request struct { Key string; Value string }` -/
structure Request where
  Key : String
  Value : String
deriving DecidableEq, Repr

/-- `type Response struct { ID uint64; Key string; Value string }` -/
structure Response where
  ID : Nat
  Key : String
  Value : String
deriving DecidableEq, Repr

/-- `NewServer`: the counter starts at the zero value. -/
def NewServer (cfg : config.ServerConfig) : Server :=
  { cfg := cfg, idCounter := 0 }

/-- One call of `log.Printf` in `handleConnection` or `processRequest`. -/
inductive LogEntry where
  | unmarshalError (line : Bytes)
  | requestReceived (key : String)
  | marshalError
  | writeError
  | readError
deriving DecidableEq, Repr

/-- State shared by every goroutine of the process, as one handler sees it: the server,
the log lines of this handler, and what the other goroutines do to the counter while
this handler runs. An entry `n` of `others` stands for `n` calls of `processRequest` by
other handlers; the first entry takes effect before the next atomic increment of this
handler, the one left when the handler returns takes effect before it returns. The
scheduler chooses `others`; the empty list is a handler running alone. -/
structure Process where
  s : Server
  log : List LogEntry
  others : List Nat := []
deriving DecidableEq, Repr

/-- What a handler observes of its `net.Conn`. -/
structure Conn where
  /-- lines the peer has sent and the scanner has not yet delivered, each without its
  newline -/
  input : List Bytes
  /-- whether reading fails, rather than reaching the end of the stream, once `input` is
  exhausted -/
  readErr : Bool
  /-- whether the call of `Write` that follows `k` earlier calls succeeds -/
  writeOk : Nat → Bool
  /-- every buffer handed to `Write` so far, with the outcome of the call -/
  writes : List (Bytes × Bool)
  /-- number of calls of `Close` so far -/
  closed : Nat

/-- The two functions of `encoding/json` the handler calls; `none` is a non-nil error. -/
structure JSON where
  Unmarshal : Bytes → Option Request
  Marshal : Response → Option Bytes

/-- How the `for scanner.Scan()` loop was left. -/
inductive Exit where
  /-- `Scan` returned false at the end of the stream or on a failed read -/
  | endOfInput
  /-- `Scan` returned false with `bufio.ErrTooLong` -/
  | tooLong
  /-- `return` after a failed `Write` -/
  | writeFailed
deriving DecidableEq, Repr

/-- `bufio.MaxScanTokenSize`: the size the buffer of a `bufio.Scanner` can grow to. -/
def MaxScanTokenSize : Nat := 64 * 1024

/-- `len(data)`: the number of bytes of the UTF-8 text. -/
def len (data : Bytes) : Nat :=
  (data.map Char.utf8Size).sum

/-- `dropCR` of `bufio.ScanLines`: a line is delivered without a final carriage return. -/
def dropCR (data : Bytes) : Bytes :=
  if data.getLast? = some '\r' then data.dropLast else data

/-- `atomic.AddUint64`: the new value, wrapping at `2 ^ 64`. -/
def atomicAddUint64 (addr : Nat) (delta : Nat) : Nat :=
  (addr + delta) % uint64Size

/-- The other goroutines make their next calls of `processRequest`: each is one
`atomic.AddUint64(&s.idCounter, 1)`. -/
def Process.yield (p : Process) : Process :=
  match p.others with
  | [] => p
  | n :: rest =>
    { p with s := { p.s with idCounter := atomicAddUint64 p.s.idCounter n }, others := rest }

/-- Append one entry to the log. -/
def Process.logf (p : Process) (e : LogEntry) : Process :=
  { p with log := p.log ++ [e] }

/-- Bytes the peer has received: the buffers of the successful writes, in order. What a
failed write delivered is not counted. -/
def Conn.sent (conn : Conn) : Bytes :=
  ((conn.writes.filter (fun w => w.2)).map (fun w => w.1)).flatten

/-- `conn.Write(buf)`: the outcome and the connection afterwards. -/
def Conn.Write (conn : Conn) (buf : Bytes) : Bool × Conn :=
  let ok := conn.writeOk conn.writes.length
  (ok, { conn with writes := conn.writes ++ [(buf, ok)] })

/-- `conn.Close()` -/
def Conn.Close (conn : Conn) : Conn :=
  { conn with closed := conn.closed + 1 }

/-! ## server/server.go: request processing -/

/-- `Server.processRequest` -/
def processRequest (p : Process) (req : Request) (_conn : Conn) : Process × Response :=
  let id := atomicAddUint64 p.s.idCounter 1
  let p := { p with s := { p.s with idCounter := id } }
  let p := p.logf (.requestReceived req.Key)
  (p, { ID := id, Key := req.Key, Value := req.Value })

/-- The `for scanner.Scan()` loop of `handleConnection` over the lines the peer sent.
`Scan` delivers a line, without a final carriage return, when the line and its newline
fit the buffer of the scanner, that is when the line has fewer than `MaxScanTokenSize`
bytes; on a longer line it returns false with `bufio.ErrTooLong`. Before the atomic
increment of `processRequest` the other goroutines make theirs (`Process.yield`). -/
def scanLoop (json : JSON) : List Bytes → Process → Conn → Process × Conn × Exit
  | [], p, conn => (p, { conn with input := [] }, .endOfInput)
  | line :: rest, p, conn =>
    if MaxScanTokenSize ≤ len line then (p, { conn with input := line :: rest }, .tooLong)
    else
      let conn := { conn with input := rest }
      match json.Unmarshal (dropCR line) with
      | none => scanLoop json rest (p.logf (.unmarshalError (dropCR line))) conn
      | some req =>
        match processRequest p.yield req conn with
        | (p, response) =>
          match json.Marshal response with
          | none => scanLoop json rest (p.logf .marshalError) conn
          | some responseJSON =>
            match conn.Write (responseJSON ++ ['\n']) with
            | (false, conn) => (p.logf .writeError, conn, .writeFailed)
            | (true, conn) => scanLoop json rest p conn

/-- `Server.handleConnection`: the loop, the check of `scanner.Err` after `Scan` returned
false, and the deferred `conn.Close`. What the other goroutines still do to the counter
before the handler returns happens last. -/
def handleConnection (json : JSON) (p : Process) (conn : Conn) : Process × Conn :=
  match scanLoop json conn.input p conn with
  | (p, conn, .writeFailed) => (p.yield, conn.Close)
  | (p, conn, .tooLong) => ((p.logf .readError).yield, conn.Close)
  | (p, conn, .endOfInput) =>
    if conn.readErr then ((p.logf .readError).yield, conn.Close) else (p.yield, conn.Close)

/-- A sequence of `processRequest` calls in the order their atomic increments take
effect, each made by some connection with some request. -/
def processRequests : Process → List (Request × Conn) → Process × List Response
  | p, [] => (p, [])
  | p, (req, conn) :: calls =>
    match processRequest p req conn with
    | (p, response) =>
      match processRequests p calls with
      | (p, responses) => (p, response :: responses)

/-! ## encoding/json, as far as `Request` and `Response` use it

`Marshal` follows the encoder of the library for a struct of one `uint64` and two
strings (compact output, HTML escaping on). `Unmarshal` follows the scanner automaton
of the library (`scanner.go`) over the whole input, and performs the decoder's
assignments to the fields of a `Request` as the automaton passes the members of the
top-level object. -/

namespace json

/-- `const hex = "0123456789abcdef"`, indexed. -/
def hex (n : Nat) : Char :=
  "0123456789abcdef".toList.getD n '0'

/-- `htmlSafeSet[b]` for `b < utf8.RuneSelf`: every printable ASCII character but the
quote, the backslash, `&`, `<` and `>`. -/
def htmlSafeSet (b : Char) : Bool :=
  0x20 ≤ b.toNat && b != '\x22' && b != '\x5c' && b != '&' && b != '<' && b != '>'

/-- What `appendString` emits for one rune of the source string. -/
def appendRune (c : Char) : Bytes :=
  if c.toNat < 0x80 then
    if htmlSafeSet c then [c]
    else if c = '\x5c' || c = '\x22' then ['\x5c', c]
    else if c = '\x08' then ['\x5c', 'b']
    else if c = '\x0c' then ['\x5c', 'f']
    else if c = '\n' then ['\x5c', 'n']
    else if c = '\r' then ['\x5c', 'r']
    else if c = '\t' then ['\x5c', 't']
    else ['\x5c', 'u', '0', '0', hex (c.toNat / 16), hex (c.toNat % 16)]
  else if c = '\u2028' || c = '\u2029' then
    ['\x5c', 'u', '2', '0', '2', hex (c.toNat % 16)]
  else [c]

/-- The body of a string literal as `appendString` writes it. -/
def appendRunes : List Char → Bytes
  | [] => []
  | c :: src => appendRune c ++ appendRunes src

/-- `appendString(dst, src, escapeHTML = true)` -/
def appendString (dst : Bytes) (src : String) : Bytes :=
  dst ++ ['\x22'] ++ appendRunes src.toList ++ ['\x22']

/-- The digit loop of `strconv.AppendUint` in base 10: the decimal digits of `u` are
pushed in front of `acc`, least significant first. The first argument bounds the number
of iterations; `u + 1` is always enough. -/
def formatBits : Nat → Nat → Bytes → Bytes
  | 0, _, acc => acc
  | fuel + 1, u, acc =>
    if u < 10 then Char.ofNat (48 + u) :: acc
    else formatBits fuel (u / 10) (Char.ofNat (48 + u % 10) :: acc)

/-- `strconv.AppendUint(dst, u, 10)` -/
def AppendUint (dst : Bytes) (u : Nat) : Bytes :=
  dst ++ formatBits (u + 1) u []

/-- `json.Marshal` of a `Response`: the fields in declaration order under their tags. -/
def marshalResponse (v : Response) : Bytes :=
  let e : Bytes := ['\x7b']
  let e := AppendUint (e ++ "\"id\":".toList) v.ID
  let e := appendString (e ++ ",\"key\":".toList) v.Key
  let e := appendString (e ++ ",\"value\":".toList) v.Value
  e ++ ['\x7d']

/-- The step functions of the scanner. -/
inductive Step where
  | beginValue | beginValueOrEmpty | beginStringOrEmpty | beginString
  | endValue | endTop
  | inString | inStringEsc | inStringEscU | inStringEscU1 | inStringEscU12
  | inStringEscU123
  | neg | s1 | s0 | dot | dot0 | e | eSign | e0
  | t | tr | tru | f | fa | fal | fals | n | nu | nul
deriving DecidableEq, Repr

/-- The entries of the scanner's parse stack. -/
inductive ParseState where
  | objectKey | objectValue | arrayValue
deriving DecidableEq, Repr

/-- `type scanner struct`: the current step function and the parse stack, innermost
entry first. `endTop` of the library holds exactly when `step` is `Step.endTop`. -/
structure scanner where
  step : Step
  parseState : List ParseState
deriving DecidableEq, Repr

/-- `maxNestingDepth` -/
def maxNestingDepth : Nat := 10000

/-- `isSpace` -/
def isSpace (c : Char) : Bool :=
  c = ' ' || c = '\t' || c = '\r' || c = '\n'

/-- Digits `0` to `9`. -/
def isDigit (c : Char) : Bool :=
  '0' ≤ c && c ≤ '9'

/-- Hexadecimal digits, as `stateInStringEscU` accepts them. -/
def isHex (c : Char) : Bool :=
  ('0' ≤ c && c ≤ '9') || ('a' ≤ c && c ≤ 'f') || ('A' ≤ c && c ≤ 'F')

/-- `pushParseState`: `none` when the nesting is deeper than `maxNestingDepth`. -/
def pushParseState (s : scanner) (newParseState : ParseState) (successState : Step) :
    Option scanner :=
  let parseState := newParseState :: s.parseState
  if parseState.length ≤ maxNestingDepth then
    some { step := successState, parseState := parseState }
  else none

/-- `popParseState` -/
def popParseState (s : scanner) : scanner :=
  let parseState := s.parseState.tail
  if parseState.length = 0 then { step := .endTop, parseState := parseState }
  else { step := .endValue, parseState := parseState }

/-- `stateEndTop`: only space may follow the top-level value. -/
def stateEndTop (s : scanner) (c : Char) : Option scanner :=
  if isSpace c then some { s with step := .endTop } else none

/-- `stateEndValue` -/
def stateEndValue (s : scanner) (c : Char) : Option scanner :=
  match s.parseState with
  | [] => stateEndTop s c
  | ps :: rest =>
    if isSpace c then some { s with step := .endValue }
    else
      match ps with
      | .objectKey =>
        if c = ':' then some { step := .beginValue, parseState := .objectValue :: rest }
        else none
      | .objectValue =>
        if c = ',' then some { step := .beginString, parseState := .objectKey :: rest }
        else if c = '\x7d' then some (popParseState s)
        else none
      | .arrayValue =>
        if c = ',' then some { s with step := .beginValue }
        else if c = ']' then some (popParseState s)
        else none

/-- `stateBeginValue` -/
def stateBeginValue (s : scanner) (c : Char) : Option scanner :=
  if isSpace c then some s
  else if c = '\x7b' then pushParseState s .objectKey .beginStringOrEmpty
  else if c = '[' then pushParseState s .arrayValue .beginValueOrEmpty
  else if c = '\x22' then some { s with step := .inString }
  else if c = '-' then some { s with step := .neg }
  else if c = '0' then some { s with step := .s0 }
  else if c = 't' then some { s with step := .t }
  else if c = 'f' then some { s with step := .f }
  else if c = 'n' then some { s with step := .n }
  else if '1' ≤ c && c ≤ '9' then some { s with step := .s1 }
  else none

/-- `stateBeginString` -/
def stateBeginString (s : scanner) (c : Char) : Option scanner :=
  if isSpace c then some s
  else if c = '\x22' then some { s with step := .inString }
  else none

/-- `state0`: after a leading `0` or the integer digits of a number. -/
def state0 (s : scanner) (c : Char) : Option scanner :=
  if c = '.' then some { s with step := .dot }
  else if c = 'e' || c = 'E' then some { s with step := .e }
  else stateEndValue s c

/-- `stateESign` -/
def stateESign (s : scanner) (c : Char) : Option scanner :=
  if isDigit c then some { s with step := .e0 } else none

/-- One byte through the scanner: `s.step(s, c)`; `none` is `scanError`. -/
def scanner.next (s : scanner) (c : Char) : Option scanner :=
  match s.step with
  | .beginValue => stateBeginValue s c
  | .beginValueOrEmpty =>
    if isSpace c then some s
    else if c = ']' then stateEndValue s c
    else stateBeginValue s c
  | .beginStringOrEmpty =>
    if isSpace c then some s
    else if c = '\x7d' then
      stateEndValue { s with parseState := .objectValue :: s.parseState.tail } c
    else stateBeginString s c
  | .beginString => stateBeginString s c
  | .endValue => stateEndValue s c
  | .endTop => stateEndTop s c
  | .inString =>
    if c = '\x22' then some { s with step := .endValue }
    else if c = '\x5c' then some { s with step := .inStringEsc }
    else if c.toNat < 0x20 then none
    else some s
  | .inStringEsc =>
    if c = 'b' || c = 'f' || c = 'n' || c = 'r' || c = 't' || c = '\x5c' || c = '/'
        || c = '\x22' then
      some { s with step := .inString }
    else if c = 'u' then some { s with step := .inStringEscU }
    else none
  | .inStringEscU => if isHex c then some { s with step := .inStringEscU1 } else none
  | .inStringEscU1 => if isHex c then some { s with step := .inStringEscU12 } else none
  | .inStringEscU12 => if isHex c then some { s with step := .inStringEscU123 } else none
  | .inStringEscU123 => if isHex c then some { s with step := .inString } else none
  | .neg =>
    if c = '0' then some { s with step := .s0 }
    else if '1' ≤ c && c ≤ '9' then some { s with step := .s1 }
    else none
  | .s1 => if isDigit c then some { s with step := .s1 } else state0 s c
  | .s0 => state0 s c
  | .dot => if isDigit c then some { s with step := .dot0 } else none
  | .dot0 =>
    if isDigit c then some s
    else if c = 'e' || c = 'E' then some { s with step := .e }
    else stateEndValue s c
  | .e =>
    if c = '+' || c = '-' then some { s with step := .eSign } else stateESign s c
  | .eSign => stateESign s c
  | .e0 => if isDigit c then some s else stateEndValue s c
  | .t => if c = 'r' then some { s with step := .tr } else none
  | .tr => if c = 'u' then some { s with step := .tru } else none
  | .tru => if c = 'e' then some { s with step := .endValue } else none
  | .f => if c = 'a' then some { s with step := .fa } else none
  | .fa => if c = 'l' then some { s with step := .fal } else none
  | .fal => if c = 's' then some { s with step := .fals } else none
  | .fals => if c = 'e' then some { s with step := .endValue } else none
  | .n => if c = 'u' then some { s with step := .nu } else none
  | .nu => if c = 'l' then some { s with step := .nul } else none
  | .nul => if c = 'l' then some { s with step := .endValue } else none

/-- `scanner.eof`: whether the input may end here. -/
def scanner.eof (s : scanner) : Bool :=
  if s.step = .endTop then true
  else
    match s.next ' ' with
    | some s => decide (s.step = .endTop)
    | none => false

/-- The value of one hexadecimal digit. -/
def hexVal (c : Char) : Option Nat :=
  if '0' ≤ c && c ≤ '9' then some (c.toNat - 48)
  else if 'a' ≤ c && c ≤ 'f' then some (c.toNat - 87)
  else if 'A' ≤ c && c ≤ 'F' then some (c.toNat - 55)
  else none

/-- The value of four hexadecimal digits. -/
def hex4 (a b c d : Char) : Option Nat :=
  match hexVal a, hexVal b, hexVal c, hexVal d with
  | some a, some b, some c, some d => some (a * 4096 + b * 256 + c * 16 + d)
  | _, _, _, _ => none

/-- `getu4`: the value of the `u` escape the text starts with and the text after it;
`none` when the text does not start with such an escape. -/
def getu4 : Bytes → Option (Nat × Bytes)
  | e1 :: e2 :: a :: b :: c :: d :: rest =>
    if e1 = '\x5c' && e2 = 'u' then (hex4 a b c d).map (fun r => (r, rest)) else none
  | _ => none

/-- `utf16.IsSurrogate` -/
def IsSurrogate (r : Nat) : Bool :=
  0xd800 ≤ r && r < 0xe000

/-- `utf16.DecodeRune`: the rune of a surrogate pair, `U+FFFD` for anything else. -/
def DecodeRune (r1 r2 : Nat) : Nat :=
  if 0xd800 ≤ r1 && r1 < 0xdc00 && 0xdc00 ≤ r2 && r2 < 0xe000 then
    (r1 - 0xd800) * 1024 + (r2 - 0xdc00) + 0x10000
  else 0xfffd

/-- The character a one-letter escape stands for in `unquoteBytes`. -/
def unescape (c : Char) : Option Char :=
  if c = '\x22' || c = '\x5c' || c = '/' || c = '\x27' then some c
  else if c = 'b' then some '\x08'
  else if c = 'f' then some '\x0c'
  else if c = 'n' then some '\n'
  else if c = 'r' then some '\r'
  else if c = 't' then some '\t'
  else none

/-- The loop of `unquoteBytes` over the text between the quotes of a string literal.
Every iteration consumes at least one character; the first argument bounds the number
of iterations. -/
def unquoteLoop : Nat → Bytes → Option Bytes
  | 0, _ => none
  | _ + 1, [] => some []
  | fuel + 1, c :: s =>
    if c = '\x5c' then
      match s with
      | [] => none
      | e :: s1 =>
        if e = 'u' then
          match getu4 (c :: s) with
          | none => none
          | some (rr, s2) =>
            if IsSurrogate rr then
              match getu4 s2 with
              | some (rr1, s3) =>
                if DecodeRune rr rr1 ≠ 0xfffd then
                  (unquoteLoop fuel s3).map (fun t => Char.ofNat (DecodeRune rr rr1) :: t)
                else (unquoteLoop fuel s2).map (fun t => Char.ofNat 0xfffd :: t)
              | none => (unquoteLoop fuel s2).map (fun t => Char.ofNat 0xfffd :: t)
            else (unquoteLoop fuel s2).map (fun t => Char.ofNat rr :: t)
        else
          match unescape e with
          | some ch => (unquoteLoop fuel s1).map (fun t => ch :: t)
          | none => none
    else if c = '\x22' || c.toNat < 0x20 then none
    else (unquoteLoop fuel s).map (fun t => c :: t)

/-- `unquoteBytes` on the text between the quotes of a string literal. -/
def unquote (s : Bytes) : Option Bytes :=
  unquoteLoop (s.length + 1) s

/-- The fields of `Request`, named by their `json` tags `key` and `value`. -/
inductive Field where
  | key | value
deriving DecidableEq, Repr

/-- `foldRune`, on the runes whose fold is an ASCII letter: the lower-case letters, the
Kelvin sign and the long s. No other rune folds to a letter of a tag of `Request`. -/
def foldRune (c : Char) : Char :=
  if 'a' ≤ c && c ≤ 'z' then Char.ofNat (c.toNat - 32)
  else if c = '\u212a' then 'K'
  else if c = '\u017f' then 'S'
  else c

/-- `foldName` -/
def foldName (name : Bytes) : Bytes :=
  name.map foldRune

/-- The field an object key names: the exact tag first, then the tag under folding. -/
def findField (key : Bytes) : Option Field :=
  if key = "key".toList then some .key
  else if key = "value".toList then some .value
  else if foldName key = foldName "key".toList then some .key
  else if foldName key = foldName "value".toList then some .value
  else none

/-- `type decodeState struct`, for a destination of type `*Request`: the scanner, the
string literal being read in the top-level object, the field its current member names,
the destination, and whether a type error was saved. -/
structure decodeState where
  scan : scanner
  lit : Bytes
  f : Option Field
  v : Request
  savedError : Bool
deriving DecidableEq, Repr

/-- Whether the scanner is inside a string literal. -/
def Step.inLiteral (st : Step) : Bool :=
  st = .inString || st = .inStringEsc || st = .inStringEscU || st = .inStringEscU1
    || st = .inStringEscU12 || st = .inStringEscU123

/-- `literalStore` of a string literal into the field the member names; a member that
names no field is skipped. -/
def decodeState.literalStore (d : decodeState) : Option decodeState :=
  match d.f with
  | none => some d
  | some .key => (unquote d.lit).map (fun t => { d with v := { d.v with Key := String.mk t } })
  | some .value =>
    (unquote d.lit).map (fun t => { d with v := { d.v with Value := String.mk t } })

/-- What the decoder does with byte `c` before the scanner moves over it.
At top level an object is decoded member by member and `null` is a no-op; any other
value is a type error for a struct. In the top-level object a key selects the field,
a string value is stored, `null` is a no-op and any other value is a type error when
the key names a field. Values nested deeper are skipped. -/
def decodeState.decode (d : decodeState) (c : Char) : Option decodeState :=
  match d.scan.parseState with
  | [] =>
    if d.scan.step = .beginValue && !isSpace c && c != '\x7b' && c != 'n' then
      some { d with savedError := true }
    else some d
  | [.objectKey] =>
    if d.scan.step.inLiteral then
      if d.scan.step = .inString && c = '\x22' then
        (unquote d.lit).map (fun key => { d with f := findField key })
      else some { d with lit := d.lit ++ [c] }
    else if (d.scan.step = .beginString || d.scan.step = .beginStringOrEmpty)
        && c = '\x22' then
      some { d with lit := [] }
    else some d
  | [.objectValue] =>
    if d.scan.step.inLiteral then
      if d.scan.step = .inString && c = '\x22' then d.literalStore
      else some { d with lit := d.lit ++ [c] }
    else if d.scan.step = .beginValue && !isSpace c then
      if c = '\x22' then some { d with lit := [] }
      else if c = 'n' then some d
      else if d.f.isSome then some { d with savedError := true }
      else some d
    else some d
  | _ => some d

/-- One byte through the decoder; `none` is a syntax error. -/
def decodeState.next (d : decodeState) (c : Char) : Option decodeState :=
  match d.scan.next c with
  | none => none
  | some scan =>
    match d.decode c with
    | none => none
    | some d => some { d with scan := scan }

/-- The decoder over the input. -/
def decodeState.run : decodeState → Bytes → Option decodeState
  | d, [] => some d
  | d, c :: data =>
    match d.next c with
    | none => none
    | some d => d.run data

/-- The decoder before the first byte, with a zero `Request` as destination. -/
def decodeState.init : decodeState :=
  { scan := { step := .beginValue, parseState := [] }, lit := [], f := none,
    v := { Key := "", Value := "" }, savedError := false }

/-- `json.Unmarshal(data, &req)` for `var req Request`: `none` is a non-nil error
(a syntax error anywhere in `data`, or a type error). -/
def UnmarshalRequest (data : Bytes) : Option Request :=
  match decodeState.init.run data with
  | none => none
  | some d => if d.scan.eof && !d.savedError then some d.v else none

end json

/-- `encoding/json` as this program uses it. Marshalling a `Response` cannot fail. -/
def goJSON : JSON :=
  { Unmarshal := json.UnmarshalRequest
    Marshal := fun v => some (json.marshalResponse v) }

/-! ## server/server.go: listeners

`Start` and the goroutines it launches are a transition system. The scheduler and the
operating system choose the events: which goroutine moves next, whether a bind
succeeds, whether `Accept` yields a connection. -/

/-- One call of `log.Printf` in `Start` or `listenOnPort`. -/
inductive ListenLog where
  | listening (port : Int)
  | listenError (port : Int)
  | acceptError (port : Int)
deriving DecidableEq, Repr

/-- Where the goroutine running `listenOnPort(port)` stands. -/
inductive ListenerStatus where
  /-- launched; `net.Listen` not yet called -/
  | started
  /-- bound, in the accept loop -/
  | accepting
  /-- `listenOnPort` returned its error and the goroutine called `wg.Done` -/
  | returned
deriving DecidableEq, Repr

/-- The goroutine `Start` launches for one configured port. -/
structure Listener where
  port : Int
  status : ListenerStatus
  /-- outcome of `net.Listen`, once called: `true` when the bind succeeded -/
  bound : Option Bool
  /-- connections handed to a `handleConnection` goroutine -/
  handled : Nat
  /-- failed calls of `Accept` -/
  acceptErrors : Nat
deriving DecidableEq, Repr

/-- `Start` and its goroutines. -/
structure StartState where
  /-- ports the `for range` loop has yet to reach -/
  pending : List Int
  /-- goroutines launched so far, in launch order -/
  listeners : List Listener
  /-- the `sync.WaitGroup` counter -/
  wg : Nat
  /-- the value `Start` returned, once it has: `some none` is a `nil` error -/
  result : Option (Option String)
  log : List ListenLog
deriving DecidableEq, Repr

/-- One move of the system. -/
inductive Event where
  /-- `Start` runs one iteration of its loop: `wg.Add(1)` and `go func(p)` -/
  | launch
  /-- goroutine `i` calls `net.Listen`, which succeeds or fails -/
  | listen (i : Nat) (ok : Bool)
  /-- goroutine `i` gets a connection (`ok`) or an error from `Accept` -/
  | accept (i : Nat) (ok : Bool)
  /-- `wg.Wait` returns and `Start` returns `nil` -/
  | wait
deriving DecidableEq, Repr

/-- `Start` on entry. -/
def Server.Start (s : Server) : StartState :=
  { pending := s.cfg.Ports, listeners := [], wg := 0, result := none, log := [] }

/-- `listenOnPort` up to the accept loop: the bind decides between the loop and the
return of an error. -/
def listenOnPort (l : Listener) (ok : Bool) : Listener :=
  match l.status with
  | .started =>
    if ok then { l with status := .accepting, bound := some true }
    else { l with status := .returned, bound := some false }
  | _ => l

/-- One iteration of the accept loop of `listenOnPort`. -/
def acceptLoop (l : Listener) (ok : Bool) : Listener :=
  match l.status with
  | .accepting =>
    if ok then { l with handled := l.handled + 1 }
    else { l with acceptErrors := l.acceptErrors + 1 }
  | _ => l

/-- The system after one event. An event that is not enabled changes nothing. -/
def StartState.step (st : StartState) : Event → StartState
  | .launch =>
    match st.pending with
    | [] => st
    | port :: rest =>
      { st with
        pending := rest
        wg := st.wg + 1
        listeners := st.listeners ++
          [{ port := port, status := .started, bound := none, handled := 0,
             acceptErrors := 0 }] }
  | .listen i ok =>
    match st.listeners[i]? with
    | none => st
    | some l =>
      if l.status = .started then
        { st with
          listeners := st.listeners.set i (listenOnPort l ok)
          wg := if ok then st.wg else st.wg - 1
          log := st.log ++ [if ok then .listening l.port else .listenError l.port] }
      else st
  | .accept i ok =>
    match st.listeners[i]? with
    | none => st
    | some l =>
      if l.status = .accepting then
        { st with
          listeners := st.listeners.set i (acceptLoop l ok)
          log := if ok then st.log else st.log ++ [.acceptError l.port] }
      else st
  | .wait =>
    if st.pending = [] ∧ st.wg = 0 ∧ st.result = none then
      { st with result := some none }
    else st

/-- The system after a sequence of events. -/
def StartState.run (st : StartState) (events : List Event) : StartState :=
  events.foldl StartState.step st

/-- Whether an event is a move of `Start` itself or of goroutine `j`. -/
def Event.concerns (j : Nat) : Event → Bool
  | .launch => true
  | .listen i _ => i = j
  | .accept i _ => i = j
  | .wait => true

/-- The invariant of `Start` and its goroutines for the configured `ports`: the ports
launched and the ports pending make up the configuration, the status of a listener
agrees with the outcome of its bind, the wait group counts the listeners that have not
returned, and `Start` has returned nothing or `nil`, the latter only with nothing
pending and the wait group at zero. -/
def StartState.Invariant (ports : List Int) (st : StartState) : Prop :=
  st.listeners.map Listener.port ++ st.pending = ports ∧
  (∀ l ∈ st.listeners,
    (l.status = .returned ↔ l.bound = some false) ∧
    (l.status = .accepting ↔ l.bound = some true)) ∧
  st.wg = st.listeners.countP (fun l => l.status != .returned) ∧
  (st.result = none ∨ st.result = some none) ∧
  (st.result ≠ none → st.pending = [] ∧ st.wg = 0)

/-! ## Sample inputs -/

/-- A connection to a healthy peer that has sent `input` and then closed its side. -/
def healthyConn (input : List Bytes) : Conn :=
  { input := input, readErr := false, writeOk := fun _ => true, writes := [], closed := 0 }

/-- A connection whose peer goes away after `n` successful writes and whose stream then
breaks. -/
def brokenConn (input : List Bytes) (n : Nat) : Conn :=
  { input := input, readErr := true, writeOk := fun k => decide (k < n), writes := [],
    closed := 0 }

/-- A process whose server has issued `n` identifiers, the handler running alone. -/
def processAt (n : Nat) : Process :=
  { s := { cfg := { Ports := [9001, 9002] }, idCounter := n }, log := [] }

/-- A fresh process in which another connection gets one request through between the
first and the second atomic increment of this handler. -/
def processBeside : Process :=
  { s := NewServer { Ports := [9001, 9002] }, log := [], others := [0, 1] }

/-- The request line with key `a` and value `1`. -/
def lineA : Bytes := "\x7b\"key\":\"a\",\"value\":\"1\"\x7d".toList

/-- The request line with key `b` and value `2`. -/
def lineB : Bytes := "\x7b\"key\":\"b\",\"value\":\"2\"\x7d".toList

/-- The request `lineA` decodes to. -/
def reqA : Request := { Key := "a", Value := "1" }

/-- The request `lineB` decodes to. -/
def reqB : Request := { Key := "b", Value := "2" }

/-- A line that is not JSON. -/
def lineJunk : Bytes := "not json".toList

/-- A line of `MaxScanTokenSize` bytes that is not JSON. -/
def longJunk : Bytes := List.replicate MaxScanTokenSize 'x'

/-- A valid request line of more than `MaxScanTokenSize` bytes: its key is
`MaxScanTokenSize` times the letter `x`, its value is `1`, and it carries an `id`
member, which a `Request` ignores. -/
def longRequest : Bytes :=
  json.marshalResponse
    { ID := 7, Key := String.mk (List.replicate MaxScanTokenSize 'x'), Value := "1" }

/-! ## encoding/json: what is marshalled is unmarshalled unchanged -/

namespace json

theorem char_eq_iff (c d : Char) : c = d ↔ c.toNat = d.toNat := by
  constructor
  · intro h; rw [h]
  · intro h
    apply Char.ext
    apply UInt32.ext
    exact h

theorem hexVal_hex (k : Nat) (hk : k < 16) : hexVal (hex k) = some k ∧ isHex (hex k) = true := by
  interval_cases k <;> decide

theorem hex4_hex (a b c d : Nat) (ha : a < 16) (hb : b < 16) (hc : c < 16) (hd : d < 16) :
    hex4 (hex a) (hex b) (hex c) (hex d) = some (a * 4096 + b * 256 + c * 16 + d) := by
  simp [hex4, (hexVal_hex a ha).1, (hexVal_hex b hb).1, (hexVal_hex c hc).1,
    (hexVal_hex d hd).1]

/-- The three shapes of what `appendString` writes for one rune: the rune itself, a
one-letter escape, or a `u` escape of four hexadecimal digits. -/
theorem appendRune_shape (c : Char) :
    (appendRune c = [c] ∧ c ≠ '\x22' ∧ c ≠ '\x5c' ∧ ¬ c.toNat < 0x20) ∨
    (∃ e, appendRune c = ['\x5c', e] ∧ unescape e = some c ∧ e ≠ 'u' ∧
      (e = 'b' || e = 'f' || e = 'n' || e = 'r' || e = 't' || e = '\x5c' || e = '/'
        || e = '\x22') = true) ∨
    (∃ A B X Y, appendRune c = ['\x5c', 'u', A, B, X, Y] ∧ isHex A = true ∧ isHex B = true ∧
      isHex X = true ∧ isHex Y = true ∧ hex4 A B X Y = some c.toNat ∧
      IsSurrogate c.toNat = false) := by
  by_cases h80 : c.toNat < 0x80
  · by_cases hs : htmlSafeSet c = true
    · left
      refine ⟨by simp [appendRune, h80, hs], ?_⟩
      simp [htmlSafeSet] at hs
      exact ⟨hs.1.1.1.1.2, hs.1.1.1.2, by omega⟩
    · by_cases h1 : c = '\x5c'
      · right; left
        subst h1
        exact ⟨'\x5c', by decide, by decide, by decide, by decide⟩
      by_cases h2 : c = '\x22'
      · right; left
        subst h2
        exact ⟨'\x22', by decide, by decide, by decide, by decide⟩
      by_cases h3 : c = '\x08'
      · right; left
        subst h3
        exact ⟨'b', by decide, by decide, by decide, by decide⟩
      by_cases h4 : c = '\x0c'
      · right; left
        subst h4
        exact ⟨'f', by decide, by decide, by decide, by decide⟩
      by_cases h5 : c = '\n'
      · right; left
        subst h5
        exact ⟨'n', by decide, by decide, by decide, by decide⟩
      by_cases h6 : c = '\r'
      · right; left
        subst h6
        exact ⟨'r', by decide, by decide, by decide, by decide⟩
      by_cases h7 : c = '\t'
      · right; left
        subst h7
        exact ⟨'t', by decide, by decide, by decide, by decide⟩
      right; right
      have h16 : c.toNat / 16 < 16 := by omega
      have hm : c.toNat % 16 < 16 := by omega
      refine ⟨hex 0, hex 0, hex (c.toNat / 16), hex (c.toNat % 16), ?_, (hexVal_hex 0 (by omega)).2,
        (hexVal_hex 0 (by omega)).2, (hexVal_hex _ h16).2, (hexVal_hex _ hm).2, ?_, ?_⟩
      · simp [appendRune, h80, hs, h1, h2, h3, h4, h5, h6, h7]
        decide
      · rw [hex4_hex 0 0 _ _ (by omega) (by omega) h16 hm]
        congr 1
        omega
      · simp [IsSurrogate]
        omega
  · by_cases h1 : c = '\u2028'
    · right; right
      subst h1
      exact ⟨'2', '0', '2', '8', by decide, by decide, by decide, by decide, by decide, by decide,
        by decide⟩
    by_cases h2 : c = '\u2029'
    · right; right
      subst h2
      exact ⟨'2', '0', '2', '9', by decide, by decide, by decide, by decide, by decide, by decide,
        by decide⟩
    left
    refine ⟨by simp [appendRune, h80, h1, h2], ?_, ?_, by omega⟩
    · intro h; rw [h] at h80; exact h80 (by decide)
    · intro h; rw [h] at h80; exact h80 (by decide)

theorem unquoteLoop_plain (fuel : Nat) (c : Char) (s : Bytes) (h1 : c ≠ '\x22')
    (h2 : c ≠ '\x5c') (h3 : ¬ c.toNat < 0x20) :
    unquoteLoop (fuel + 1) (c :: s) = (unquoteLoop fuel s).map (fun t => c :: t) := by
  rw [unquoteLoop.eq_def]
  simp [h1, h2, h3]

theorem unquoteLoop_escape (fuel : Nat) (e ch : Char) (s : Bytes) (h : e ≠ 'u')
    (he : unescape e = some ch) :
    unquoteLoop (fuel + 1) ('\x5c' :: e :: s) = (unquoteLoop fuel s).map (fun t => ch :: t) := by
  rw [unquoteLoop.eq_def]
  simp [h, he]

theorem unquoteLoop_u4 (fuel : Nat) (a b c d : Char) (s : Bytes) (rr : Nat)
    (h : hex4 a b c d = some rr) (hs : IsSurrogate rr = false) :
    unquoteLoop (fuel + 1) ('\x5c' :: 'u' :: a :: b :: c :: d :: s) =
      (unquoteLoop fuel s).map (fun t => Char.ofNat rr :: t) := by
  rw [unquoteLoop.eq_def]
  simp [getu4, h, hs]

theorem unquoteLoop_appendRune (fuel : Nat) (c : Char) (t : Bytes) :
    unquoteLoop (fuel + 1) (appendRune c ++ t) =
      (unquoteLoop fuel t).map (fun r => c :: r) := by
  rcases appendRune_shape c with ⟨h, h1, h2, h3⟩ | ⟨e, h, h1, h2, _⟩ |
    ⟨A, B, X, Y, h, _, _, _, _, h1, h2⟩
  · rw [h, List.singleton_append, unquoteLoop_plain fuel c t h1 h2 h3]
  · rw [h]
    simp only [List.cons_append, List.nil_append]
    rw [unquoteLoop_escape fuel e c t h2 h1]
  · rw [h]
    simp only [List.cons_append, List.nil_append]
    rw [unquoteLoop_u4 fuel A B X Y t c.toNat h1 h2, Char.ofNat_toNat]

theorem unquoteLoop_appendRunes (s : List Char) :
    ∀ fuel, s.length < fuel → unquoteLoop fuel (appendRunes s) = some s := by
  induction s with
  | nil =>
    intro fuel h
    cases fuel with
    | zero => cases h
    | succ fuel => rfl
  | cons c s ih =>
    intro fuel h
    cases fuel with
    | zero => cases h
    | succ fuel =>
      rw [appendRunes, unquoteLoop_appendRune, ih fuel (by simpa using h)]
      rfl

theorem length_le_appendRunes (s : List Char) : s.length ≤ (appendRunes s).length := by
  induction s with
  | nil => simp [appendRunes]
  | cons c s ih =>
    rw [appendRunes, List.length_append, List.length_cons]
    have : 1 ≤ (appendRune c).length := by
      rcases appendRune_shape c with ⟨h, _⟩ | ⟨e, h, _⟩ | ⟨A, B, X, Y, h, _⟩ <;> rw [h] <;> simp
    omega

theorem unquote_appendRunes (s : List Char) : unquote (appendRunes s) = some s :=
  unquoteLoop_appendRunes s _ (Nat.lt_succ_of_le (length_le_appendRunes s))

theorem decode_run_cons (d : decodeState) (c : Char) (data : Bytes) :
    d.run (c :: data) = (d.next c).bind (fun d => d.run data) := by
  rw [decodeState.run]
  cases d.next c <;> rfl

/-- Inside a string value of the top-level object a plain character is appended to the
literal. -/
theorem next_inString_plain (c : Char) (lit : Bytes) (f : Option Field) (v : Request)
    (h1 : c ≠ '\x22') (h2 : c ≠ '\x5c') (h3 : ¬ c.toNat < 0x20) :
    decodeState.next ⟨⟨.inString, [.objectValue]⟩, lit, f, v, false⟩ c =
      some ⟨⟨.inString, [.objectValue]⟩, lit ++ [c], f, v, false⟩ := by
  simp [decodeState.next, scanner.next, decodeState.decode, Step.inLiteral, h1, h2, h3]

theorem next_inString_backslash (lit : Bytes) (f : Option Field) (v : Request) :
    decodeState.next ⟨⟨.inString, [.objectValue]⟩, lit, f, v, false⟩ '\x5c' =
      some ⟨⟨.inStringEsc, [.objectValue]⟩, lit ++ ['\x5c'], f, v, false⟩ := by
  rfl

theorem next_inStringEsc (e : Char) (lit : Bytes) (f : Option Field) (v : Request)
    (he : (e = 'b' || e = 'f' || e = 'n' || e = 'r' || e = 't' || e = '\x5c' || e = '/'
        || e = '\x22') = true) :
    decodeState.next ⟨⟨.inStringEsc, [.objectValue]⟩, lit, f, v, false⟩ e =
      some ⟨⟨.inString, [.objectValue]⟩, lit ++ [e], f, v, false⟩ := by
  simp only [decodeState.next, scanner.next, he, if_true]
  rfl

theorem next_inStringEsc_u (lit : Bytes) (f : Option Field) (v : Request) :
    decodeState.next ⟨⟨.inStringEsc, [.objectValue]⟩, lit, f, v, false⟩ 'u' =
      some ⟨⟨.inStringEscU, [.objectValue]⟩, lit ++ ['u'], f, v, false⟩ := by
  rfl

theorem next_inStringEscU (st st' : Step) (c : Char) (lit : Bytes) (f : Option Field)
    (v : Request) (hc : isHex c = true)
    (hst : (st = .inStringEscU ∧ st' = .inStringEscU1) ∨
      (st = .inStringEscU1 ∧ st' = .inStringEscU12) ∨
      (st = .inStringEscU12 ∧ st' = .inStringEscU123) ∨
      (st = .inStringEscU123 ∧ st' = .inString)) :
    decodeState.next ⟨⟨st, [.objectValue]⟩, lit, f, v, false⟩ c =
      some ⟨⟨st', [.objectValue]⟩, lit ++ [c], f, v, false⟩ := by
  rcases hst with ⟨rfl, rfl⟩ | ⟨rfl, rfl⟩ | ⟨rfl, rfl⟩ | ⟨rfl, rfl⟩ <;>
    simp only [decodeState.next, scanner.next, hc, if_true] <;> rfl

theorem run_appendRune (c : Char) (rest lit : Bytes) (f : Option Field) (v : Request) :
    decodeState.run ⟨⟨.inString, [.objectValue]⟩, lit, f, v, false⟩ (appendRune c ++ rest) =
      decodeState.run ⟨⟨.inString, [.objectValue]⟩, lit ++ appendRune c, f, v, false⟩ rest := by
  rcases appendRune_shape c with ⟨h, h1, h2, h3⟩ | ⟨e, h, _, _, he⟩ |
    ⟨A, B, X, Y, h, hA, hB, hX, hY, _, _⟩
  · rw [h, List.singleton_append, decode_run_cons, next_inString_plain c lit f v h1 h2 h3]
    rfl
  · rw [h]
    simp only [List.cons_append, List.nil_append]
    rw [decode_run_cons, next_inString_backslash, Option.some_bind, decode_run_cons,
      next_inStringEsc e _ f v he, Option.some_bind]
    simp
  · rw [h]
    simp only [List.cons_append, List.nil_append]
    rw [decode_run_cons, next_inString_backslash, Option.some_bind, decode_run_cons,
      next_inStringEsc_u, Option.some_bind, decode_run_cons,
      next_inStringEscU .inStringEscU .inStringEscU1 A _ f v hA (by simp), Option.some_bind,
      decode_run_cons,
      next_inStringEscU .inStringEscU1 .inStringEscU12 B _ f v hB (by simp), Option.some_bind,
      decode_run_cons,
      next_inStringEscU .inStringEscU12 .inStringEscU123 X _ f v hX (by simp),
      Option.some_bind, decode_run_cons,
      next_inStringEscU .inStringEscU123 .inString Y _ f v hY (by simp), Option.some_bind]
    simp

theorem run_appendRunes (s : List Char) :
    ∀ (rest lit : Bytes) (f : Option Field) (v : Request),
      decodeState.run ⟨⟨.inString, [.objectValue]⟩, lit, f, v, false⟩ (appendRunes s ++ rest) =
        decodeState.run ⟨⟨.inString, [.objectValue]⟩, lit ++ appendRunes s, f, v, false⟩ rest := by
  induction s with
  | nil => intro rest lit f v; simp [appendRunes]
  | cons c s ih =>
    intro rest lit f v
    rw [appendRunes, List.append_assoc, run_appendRune, ih, List.append_assoc]

theorem formatBits_digits :
    ∀ (fuel u : Nat) (acc : Bytes), u < fuel →
      ∃ (d : Nat) (ds : List Nat),
        formatBits fuel u acc =
          Char.ofNat (48 + d) :: (ds.map (fun k => Char.ofNat (48 + k)) ++ acc) ∧
        d < 10 ∧ (∀ k ∈ ds, k < 10) ∧ (d = 0 → ds = []) ∧ (d = 0 → u = 0) := by
  intro fuel
  induction fuel with
  | zero => intro u acc h; cases h
  | succ fuel ih =>
    intro u acc h
    rw [formatBits]
    by_cases hu : u < 10
    · exact ⟨u, [], by simp [hu], hu, by simp, fun _ => rfl, fun h0 => h0⟩
    · obtain ⟨d, ds, h1, h2, h3, h4, h5⟩ :=
        ih (u / 10) (Char.ofNat (48 + u % 10) :: acc) (by omega)
      refine ⟨d, ds ++ [u % 10], ?_, h2, ?_, ?_, ?_⟩
      · rw [if_neg hu, h1]; simp
      · intro k hk
        rcases List.mem_append.1 hk with hk | hk
        · exact h3 k hk
        · simp at hk; omega
      · intro h0; have := h5 h0; omega
      · intro h0; have := h5 h0; omega

theorem run_digits_tail (ds : List Nat) (hds : ∀ k ∈ ds, k < 10) (rest lit : Bytes)
    (v : Request) :
    decodeState.run ⟨⟨.s1, [.objectValue]⟩, lit, none, v, false⟩
        (ds.map (fun k => Char.ofNat (48 + k)) ++ ',' :: rest) =
      decodeState.run ⟨⟨.beginString, [.objectKey]⟩, lit, none, v, false⟩ rest := by
  induction ds with
  | nil => rfl
  | cons k ds ih =>
    have hk : k < 10 := hds k (List.mem_cons_self _ _)
    have hstep : decodeState.next ⟨⟨.s1, [.objectValue]⟩, lit, none, v, false⟩
        (Char.ofNat (48 + k)) = some ⟨⟨.s1, [.objectValue]⟩, lit, none, v, false⟩ := by
      interval_cases k <;> rfl
    rw [List.map_cons, List.cons_append, decode_run_cons, hstep, Option.some_bind]
    exact ih (fun k hk => hds k (List.mem_cons_of_mem _ hk))

/-- The decoder skips the number `AppendUint` writes for a member that names no field,
and the comma after it. -/
theorem run_AppendUint (u : Nat) (rest lit : Bytes) (v : Request) :
    decodeState.run ⟨⟨.beginValue, [.objectValue]⟩, lit, none, v, false⟩
        (formatBits (u + 1) u [] ++ ',' :: rest) =
      decodeState.run ⟨⟨.beginString, [.objectKey]⟩, lit, none, v, false⟩ rest := by
  obtain ⟨d, ds, h1, h2, h3, h4, _⟩ := formatBits_digits (u + 1) u [] (Nat.lt_succ_self u)
  rw [h1, List.append_nil, List.cons_append, decode_run_cons]
  by_cases hd : d = 0
  · subst hd
    rw [h4 rfl]
    rfl
  · have hstep : decodeState.next ⟨⟨.beginValue, [.objectValue]⟩, lit, none, v, false⟩
        (Char.ofNat (48 + d)) = some ⟨⟨.s1, [.objectValue]⟩, lit, none, v, false⟩ := by
      interval_cases d
      · exact absurd rfl hd
      all_goals rfl
    rw [hstep, Option.some_bind]
    exact run_digits_tail ds h3 rest lit v

theorem marshalResponse_eq (v : Response) :
    marshalResponse v =
      '\x7b' :: '\x22' :: 'i' :: 'd' :: '\x22' :: ':' ::
        (formatBits (v.ID + 1) v.ID [] ++
          (',' :: '\x22' :: 'k' :: 'e' :: 'y' :: '\x22' :: ':' :: '\x22' ::
            (appendRunes v.Key.toList ++
              ('\x22' :: ',' :: '\x22' :: 'v' :: 'a' :: 'l' :: 'u' :: 'e' :: '\x22' :: ':' ::
                '\x22' :: (appendRunes v.Value.toList ++ ['\x22', '\x7d']))))) := by
  have e1 : "\"id\":".toList = ['\x22', 'i', 'd', '\x22', ':'] := by decide
  have e2 : ",\"key\":".toList = [',', '\x22', 'k', 'e', 'y', '\x22', ':'] := by decide
  have e3 : ",\"value\":".toList = [',', '\x22', 'v', 'a', 'l', 'u', 'e', '\x22', ':'] := by
    decide
  simp only [marshalResponse, AppendUint, appendString, e1, e2, e3, List.append_assoc,
    List.cons_append, List.nil_append]

theorem run_head (rest : Bytes) :
    decodeState.init.run ('\x7b' :: '\x22' :: 'i' :: 'd' :: '\x22' :: ':' :: rest) =
      decodeState.run ⟨⟨.beginValue, [.objectValue]⟩, ['i', 'd'], none, ⟨"", ""⟩, false⟩
        rest := by
  rfl

theorem run_key_tag (rest lit : Bytes) (v : Request) :
    decodeState.run ⟨⟨.beginString, [.objectKey]⟩, lit, none, v, false⟩
        ('\x22' :: 'k' :: 'e' :: 'y' :: '\x22' :: ':' :: '\x22' :: rest) =
      decodeState.run ⟨⟨.inString, [.objectValue]⟩, [], some .key, v, false⟩ rest := by
  rfl

theorem run_value_tag (rest lit : Bytes) (v : Request) :
    decodeState.run ⟨⟨.endValue, [.objectValue]⟩, lit, some .key, v, false⟩
        (',' :: '\x22' :: 'v' :: 'a' :: 'l' :: 'u' :: 'e' :: '\x22' :: ':' :: '\x22' :: rest) =
      decodeState.run ⟨⟨.inString, [.objectValue]⟩, [], some .value, v, false⟩ rest := by
  rfl

/-- The closing quote of a string value stores the unquoted literal in the field. -/
theorem next_close_quote (s : List Char) (fld : Field) (v : Request) :
    decodeState.next ⟨⟨.inString, [.objectValue]⟩, appendRunes s, some fld, v, false⟩ '\x22' =
      some ⟨⟨.endValue, [.objectValue]⟩, appendRunes s, some fld,
        match fld with
        | .key => { v with Key := String.mk s }
        | .value => { v with Value := String.mk s }, false⟩ := by
  cases fld <;>
    simp [decodeState.next, scanner.next, decodeState.decode, Step.inLiteral,
      decodeState.literalStore, unquote_appendRunes]

theorem run_close_object (lit : Bytes) (f : Option Field) (v : Request) :
    decodeState.run ⟨⟨.endValue, [.objectValue]⟩, lit, f, v, false⟩ ['\x7d'] =
      some ⟨⟨.endTop, []⟩, lit, f, v, false⟩ := by
  rfl

theorem UnmarshalRequest_marshalResponse (v : Response) :
    UnmarshalRequest (marshalResponse v) = some { Key := v.Key, Value := v.Value } := by
  unfold UnmarshalRequest
  rw [marshalResponse_eq, run_head, run_AppendUint, run_key_tag,
    run_appendRunes, decode_run_cons, List.nil_append, next_close_quote,
    Option.some_bind, run_value_tag, run_appendRunes, decode_run_cons,
    List.nil_append, next_close_quote, Option.some_bind, run_close_object]
  simp [scanner.eof]

end json

/-- C5: for every identifier and every pair of strings `key` and `value` (among them
those of any decoded `Request`), the line `json.Marshal` produces for
`Response{ID, Key, Value}` decodes back, by `json.Unmarshal` into a `Request`, to exactly
the strings `key` and `value`. -/
theorem marshal_unmarshal_roundtrip (id : Nat) (key value : String) :
    (goJSON.Marshal { ID := id, Key := key, Value := value }).bind goJSON.Unmarshal =
      some { Key := key, Value := value } := by
  simp only [goJSON, Option.some_bind]
  exact json.UnmarshalRequest_marshalResponse { ID := id, Key := key, Value := value }

/-! ## The handler loop -/

theorem uint64Size_pos : 0 < uint64Size := by
  simp [uint64Size]

theorem uint64_succ_add (c k : Nat) :
    ((c + 1) % uint64Size + k) % uint64Size = (c + (k + 1)) % uint64Size := by
  unfold uint64Size
  omega

theorem uint64_chain (c o k : Nat) :
    (((c + o) % uint64Size + 1) % uint64Size + k) % uint64Size =
      (c + (k + 1) + o) % uint64Size := by
  unfold uint64Size
  omega

@[simp] theorem logf_s (p : Process) (e : LogEntry) : (p.logf e).s = p.s := rfl

@[simp] theorem logf_others (p : Process) (e : LogEntry) : (p.logf e).others = p.others := rfl

@[simp] theorem processRequest_idCounter (p : Process) (req : Request) (conn : Conn) :
    (processRequest p req conn).1.s.idCounter = (p.s.idCounter + 1) % uint64Size := rfl

@[simp] theorem processRequest_cfg (p : Process) (req : Request) (conn : Conn) :
    (processRequest p req conn).1.s.cfg = p.s.cfg := rfl

@[simp] theorem processRequest_others (p : Process) (req : Request) (conn : Conn) :
    (processRequest p req conn).1.others = p.others := rfl

@[simp] theorem processRequest_response (p : Process) (req : Request) (conn : Conn) :
    (processRequest p req conn).2 =
      { ID := (p.s.idCounter + 1) % uint64Size, Key := req.Key, Value := req.Value } := rfl

theorem yield_alone (p : Process) (h : p.others = []) : p.yield = p := by
  unfold Process.yield
  rw [h]

theorem yield_others (p : Process) : p.yield.others = p.others.drop 1 := by
  unfold Process.yield
  cases h : p.others <;> simp [h]

theorem yield_cfg (p : Process) : p.yield.s.cfg = p.s.cfg := by
  unfold Process.yield
  cases h : p.others <;> rfl

theorem yield_idCounter (p : Process) (hwf : p.s.idCounter < uint64Size) :
    p.yield.s.idCounter = (p.s.idCounter + (p.others.take 1).sum) % uint64Size := by
  unfold Process.yield
  cases h : p.others with
  | nil => simp [Nat.mod_eq_of_lt hwf]
  | cons n rest => simp [atomicAddUint64]

theorem yield_lt (p : Process) (hwf : p.s.idCounter < uint64Size) :
    p.yield.s.idCounter < uint64Size := by
  rw [yield_idCounter p hwf]
  exact Nat.mod_lt _ uint64Size_pos

theorem yield_logf (p : Process) (e : LogEntry) : (p.logf e).yield = p.yield.logf e := by
  unfold Process.yield Process.logf
  cases h : p.others <;> simp [h]

theorem take_succ_sum (l : List Nat) (d : Nat) :
    (l.take (d + 1)).sum = (l.take 1).sum + ((l.drop 1).take d).sum := by
  cases l <;> simp

theorem scanLoop_input_irrelevant (json : JSON) (lines : List Bytes) (p : Process)
    (conn : Conn) (x : List Bytes) :
    scanLoop json lines p { conn with input := x } = scanLoop json lines p conn := by
  cases lines <;> rfl

theorem scanLoop_tooLong (json : JSON) (line : Bytes) (rest : List Bytes)
    (p : Process) (conn : Conn) (hl : MaxScanTokenSize ≤ len line) :
    scanLoop json (line :: rest) p conn =
      (p, { conn with input := line :: rest }, .tooLong) := by
  rw [scanLoop]; simp [hl]

theorem scanLoop_unmarshal_err (json : JSON) (line : Bytes) (rest : List Bytes)
    (p : Process) (conn : Conn) (hl : len line < MaxScanTokenSize)
    (hu : json.Unmarshal (dropCR line) = none) :
    scanLoop json (line :: rest) p conn =
      scanLoop json rest (p.logf (.unmarshalError (dropCR line)))
        { conn with input := rest } := by
  rw [scanLoop]; simp [hu, Nat.not_le.2 hl]

theorem scanLoop_marshal_err (json : JSON) (line : Bytes) (rest : List Bytes)
    (p : Process) (conn : Conn) (req : Request) (hl : len line < MaxScanTokenSize)
    (hu : json.Unmarshal (dropCR line) = some req)
    (hm : json.Marshal (processRequest p.yield req conn).2 = none) :
    scanLoop json (line :: rest) p conn =
      scanLoop json rest ((processRequest p.yield req conn).1.logf .marshalError)
        { conn with input := rest } := by
  have hm2 : json.Marshal (processRequest p.yield req { conn with input := rest }).2 = none :=
    hm
  rw [scanLoop]; simp only [hu, hm2, Nat.not_le.2 hl, if_false]; rfl

theorem scanLoop_write_err (json : JSON) (line : Bytes) (rest : List Bytes)
    (p : Process) (conn : Conn) (req : Request) (js : Bytes)
    (hl : len line < MaxScanTokenSize)
    (hu : json.Unmarshal (dropCR line) = some req)
    (hm : json.Marshal (processRequest p.yield req conn).2 = some js)
    (hw : conn.writeOk conn.writes.length = false) :
    scanLoop json (line :: rest) p conn =
      ((processRequest p.yield req conn).1.logf .writeError,
        { conn with input := rest, writes := conn.writes ++ [(js ++ ['\n'], false)] },
        .writeFailed) := by
  have hm2 : json.Marshal (processRequest p.yield req { conn with input := rest }).2 =
      some js := hm
  rw [scanLoop]; simp only [hu, hm2, Conn.Write, hw, Nat.not_le.2 hl, if_false]; rfl

theorem scanLoop_write_ok (json : JSON) (line : Bytes) (rest : List Bytes)
    (p : Process) (conn : Conn) (req : Request) (js : Bytes)
    (hl : len line < MaxScanTokenSize)
    (hu : json.Unmarshal (dropCR line) = some req)
    (hm : json.Marshal (processRequest p.yield req conn).2 = some js)
    (hw : conn.writeOk conn.writes.length = true) :
    scanLoop json (line :: rest) p conn =
      scanLoop json rest (processRequest p.yield req conn).1
        { conn with input := rest, writes := conn.writes ++ [(js ++ ['\n'], true)] } := by
  have hm2 : json.Marshal (processRequest p.yield req { conn with input := rest }).2 =
      some js := hm
  rw [scanLoop]; simp only [hu, hm2, Conn.Write, hw, Nat.not_le.2 hl, if_false]; rfl

/-- The five ways one iteration of the loop can go. -/
theorem scanLoop_step_cases (json : JSON) (line : Bytes) (p : Process) (conn : Conn) :
    MaxScanTokenSize ≤ len line ∨
    (len line < MaxScanTokenSize ∧
      (json.Unmarshal (dropCR line) = none ∨
      (∃ req, json.Unmarshal (dropCR line) = some req ∧
        (json.Marshal (processRequest p.yield req conn).2 = none ∨
         ∃ js, json.Marshal (processRequest p.yield req conn).2 = some js ∧
           (conn.writeOk conn.writes.length = false ∨
            conn.writeOk conn.writes.length = true))))) := by
  rcases Nat.lt_or_ge (len line) MaxScanTokenSize with hl | hl
  · refine Or.inr ⟨hl, ?_⟩
    cases hu : json.Unmarshal (dropCR line) with
    | none => exact Or.inl rfl
    | some req =>
      refine Or.inr ⟨req, rfl, ?_⟩
      cases hm : json.Marshal (processRequest p.yield req conn).2 with
      | none => exact Or.inl rfl
      | some js =>
        refine Or.inr ⟨js, rfl, ?_⟩
        cases conn.writeOk conn.writes.length <;> simp
  · exact Or.inl hl

theorem scanLoop_closed (json : JSON) (lines : List Bytes) :
    ∀ (p : Process) (conn : Conn),
      (scanLoop json lines p conn).2.1.closed = conn.closed ∧
      (scanLoop json lines p conn).2.1.readErr = conn.readErr ∧
      (scanLoop json lines p conn).2.1.writeOk = conn.writeOk := by
  induction lines with
  | nil => intro p conn; simp [scanLoop]
  | cons line rest ih =>
    intro p conn
    rcases scanLoop_step_cases json line p conn with
      hl | ⟨hl, hu | ⟨req, hu, hm | ⟨js, hm, hw | hw⟩⟩⟩
    · rw [scanLoop_tooLong json line rest p conn hl]; simp
    · rw [scanLoop_unmarshal_err json line rest p conn hl hu]; exact ih _ _
    · rw [scanLoop_marshal_err json line rest p conn req hl hu hm]; exact ih _ _
    · rw [scanLoop_write_err json line rest p conn req js hl hu hm hw]; simp
    · rw [scanLoop_write_ok json line rest p conn req js hl hu hm hw]; exact ih _ _

theorem scanLoop_counter (json : JSON) (lines : List Bytes) :
    ∀ (p : Process) (conn : Conn), p.s.idCounter < uint64Size →
      ∃ consumed : List Bytes,
        lines = consumed ++ (scanLoop json lines p conn).2.1.input ∧
        (scanLoop json lines p conn).1.s.idCounter =
          (p.s.idCounter +
            (consumed.filter (fun l => (json.Unmarshal (dropCR l)).isSome)).length +
            (p.others.take
              (consumed.filter (fun l => (json.Unmarshal (dropCR l)).isSome)).length).sum)
            % uint64Size ∧
        (scanLoop json lines p conn).1.others =
          p.others.drop (consumed.filter (fun l => (json.Unmarshal (dropCR l)).isSome)).length ∧
        (scanLoop json lines p conn).1.s.cfg = p.s.cfg := by
  induction lines with
  | nil =>
    intro p conn hwf
    exact ⟨[], by simp [scanLoop], by simp [scanLoop, Nat.mod_eq_of_lt hwf],
      by simp [scanLoop], by simp [scanLoop]⟩
  | cons line rest ih =>
    intro p conn hwf
    have hy := yield_lt p hwf
    have hlt : (p.yield.s.idCounter + 1) % uint64Size < uint64Size :=
      Nat.mod_lt _ uint64Size_pos
    have key : ∀ d : Nat,
        ((p.yield.s.idCounter + 1) % uint64Size + d + ((p.others.drop 1).take d).sum)
            % uint64Size =
          (p.s.idCounter + (d + 1) + (p.others.take (d + 1)).sum) % uint64Size := by
      intro d
      have e := take_succ_sum p.others d
      rw [yield_idCounter p hwf, e]
      unfold uint64Size
      omega
    rcases scanLoop_step_cases json line p conn with
      hl | ⟨hl, hu | ⟨req, hu, hm | ⟨js, hm, hw | hw⟩⟩⟩
    · rw [scanLoop_tooLong json line rest p conn hl]
      exact ⟨[], by simp, by simp [Nat.mod_eq_of_lt hwf], by simp, by simp⟩
    · rw [scanLoop_unmarshal_err json line rest p conn hl hu]
      obtain ⟨consumed, h1, h2, h3, h4⟩ :=
        ih (p.logf (.unmarshalError (dropCR line))) { conn with input := rest } hwf
      refine ⟨line :: consumed, ?_, ?_, ?_, ?_⟩
      · rw [List.cons_append, ← h1]
      · rw [h2]; simp [hu]
      · rw [h3]; simp [hu]
      · rw [h4]; rfl
    · rw [scanLoop_marshal_err json line rest p conn req hl hu hm]
      obtain ⟨consumed, h1, h2, h3, h4⟩ :=
        ih ((processRequest p.yield req conn).1.logf .marshalError)
          { conn with input := rest } hlt
      refine ⟨line :: consumed, ?_, ?_, ?_, ?_⟩
      · rw [List.cons_append, ← h1]
      · rw [h2]
        simp only [logf_s, logf_others, processRequest_idCounter, processRequest_others,
          yield_others, List.filter_cons, hu, Option.isSome_some, if_true, List.length_cons]
        exact key _
      · rw [h3]
        simp [hu, yield_others, List.drop_drop, Nat.add_comm]
      · rw [h4]; simp [yield_cfg]
    · rw [scanLoop_write_err json line rest p conn req js hl hu hm hw]
      refine ⟨[line], by simp, ?_, by simp [hu, yield_others], by simp [yield_cfg]⟩
      simp only [logf_s, processRequest_idCounter, List.filter_cons, hu, Option.isSome_some,
        if_true, List.filter_nil, List.length_cons, List.length_nil]
      have := key 0
      simpa using this
    · rw [scanLoop_write_ok json line rest p conn req js hl hu hm hw]
      obtain ⟨consumed, h1, h2, h3, h4⟩ :=
        ih (processRequest p.yield req conn).1
          { conn with input := rest, writes := conn.writes ++ [(js ++ ['\n'], true)] } hlt
      refine ⟨line :: consumed, ?_, ?_, ?_, ?_⟩
      · rw [List.cons_append, ← h1]
      · rw [h2]
        simp only [processRequest_idCounter, processRequest_others,
          yield_others, List.filter_cons, hu, Option.isSome_some, if_true, List.length_cons]
        exact key _
      · rw [h3]
        simp [hu, yield_others, List.drop_drop, Nat.add_comm]
      · rw [h4]; simp [yield_cfg]

theorem scanLoop_outcome (json : JSON) (lines : List Bytes) :
    ∀ (p : Process) (conn : Conn),
      ((scanLoop json lines p conn).2.2 = .endOfInput ∧
        (scanLoop json lines p conn).2.1.input = [] ∧
        (∀ l ∈ lines, len l < MaxScanTokenSize) ∧
        ∃ news, (scanLoop json lines p conn).2.1.writes = conn.writes ++ news ∧
          ∀ w ∈ news, w.2 = true) ∨
      ((scanLoop json lines p conn).2.2 = .tooLong ∧
        ∃ pre line post news,
          lines = pre ++ line :: post ∧ MaxScanTokenSize ≤ len line ∧
          (∀ l ∈ pre, len l < MaxScanTokenSize) ∧
          (scanLoop json lines p conn).2.1.input = line :: post ∧
          (scanLoop json lines p conn).2.1.writes = conn.writes ++ news ∧
          (∀ w ∈ news, w.2 = true)) ∨
      ((scanLoop json lines p conn).2.2 = .writeFailed ∧
        ∃ pre line post req init buf,
          lines = pre ++ line :: post ∧ json.Unmarshal (dropCR line) = some req ∧
          (scanLoop json lines p conn).2.1.input = post ∧
          (scanLoop json lines p conn).2.1.writes = conn.writes ++ init ++ [(buf, false)] ∧
          (∀ w ∈ init, w.2 = true) ∧
          ∀ post', scanLoop json (pre ++ line :: post') p conn =
            ((scanLoop json lines p conn).1,
              { (scanLoop json lines p conn).2.1 with input := post' }, .writeFailed)) := by
  induction lines with
  | nil =>
    intro p conn
    exact Or.inl ⟨rfl, rfl, by simp, [], by simp [scanLoop], by simp⟩
  | cons l rest ih =>
    intro p conn
    rcases scanLoop_step_cases json l p conn with
      hl | ⟨hl, hu | ⟨req, hu, hm | ⟨js, hm, hw | hw⟩⟩⟩
    · rw [scanLoop_tooLong json l rest p conn hl]
      exact Or.inr (Or.inl ⟨rfl, [], l, rest, [], rfl, hl, by simp, rfl, by simp, by simp⟩)
    · rw [scanLoop_unmarshal_err json l rest p conn hl hu]
      rcases ih (p.logf (.unmarshalError (dropCR l))) { conn with input := rest } with
        ⟨h1, h2, hs, news, h3, h4⟩ | ⟨h1, pre, line, post, news, e1, e2, e3, e4, e5, e6⟩ |
        ⟨h1, pre, line, post, r, init, buf, e1, e2, e3, e4, e5, e6⟩
      · refine Or.inl ⟨h1, h2, ?_, news, h3, h4⟩
        intro x hx
        rcases List.mem_cons.1 hx with rfl | hx
        · exact hl
        · exact hs x hx
      · refine Or.inr (Or.inl ⟨h1, l :: pre, line, post, news, by rw [e1]; rfl, e2, ?_, e4,
          e5, e6⟩)
        intro x hx
        rcases List.mem_cons.1 hx with rfl | hx
        · exact hl
        · exact e3 x hx
      · refine Or.inr (Or.inr ⟨h1, l :: pre, line, post, r, init, buf, by rw [e1]; rfl, e2,
          e3, e4, e5, ?_⟩)
        intro post'
        rw [List.cons_append, scanLoop_unmarshal_err json l _ p conn hl hu, ← e6 post']
        exact (scanLoop_input_irrelevant json _ _ conn _).trans
          (scanLoop_input_irrelevant json _ _ conn _).symm
    · rw [scanLoop_marshal_err json l rest p conn req hl hu hm]
      rcases ih ((processRequest p.yield req conn).1.logf .marshalError)
          { conn with input := rest } with
        ⟨h1, h2, hs, news, h3, h4⟩ | ⟨h1, pre, line, post, news, e1, e2, e3, e4, e5, e6⟩ |
        ⟨h1, pre, line, post, r, init, buf, e1, e2, e3, e4, e5, e6⟩
      · refine Or.inl ⟨h1, h2, ?_, news, h3, h4⟩
        intro x hx
        rcases List.mem_cons.1 hx with rfl | hx
        · exact hl
        · exact hs x hx
      · refine Or.inr (Or.inl ⟨h1, l :: pre, line, post, news, by rw [e1]; rfl, e2, ?_, e4,
          e5, e6⟩)
        intro x hx
        rcases List.mem_cons.1 hx with rfl | hx
        · exact hl
        · exact e3 x hx
      · refine Or.inr (Or.inr ⟨h1, l :: pre, line, post, r, init, buf, by rw [e1]; rfl, e2,
          e3, e4, e5, ?_⟩)
        intro post'
        rw [List.cons_append, scanLoop_marshal_err json l _ p conn req hl hu hm, ← e6 post']
        exact (scanLoop_input_irrelevant json _ _ conn _).trans
          (scanLoop_input_irrelevant json _ _ conn _).symm
    · rw [scanLoop_write_err json l rest p conn req js hl hu hm hw]
      refine Or.inr (Or.inr ⟨rfl, [], l, rest, req, [], js ++ ['\n'], rfl, hu, rfl, by simp,
        by simp, ?_⟩)
      intro post'
      rw [List.nil_append, scanLoop_write_err json l post' p conn req js hl hu hm hw]
    · rw [scanLoop_write_ok json l rest p conn req js hl hu hm hw]
      have irr : ∀ (ls x : List Bytes),
          scanLoop json ls (processRequest p.yield req conn).1
            { conn with input := x, writes := conn.writes ++ [(js ++ ['\n'], true)] } =
          scanLoop json ls (processRequest p.yield req conn).1
            { conn with writes := conn.writes ++ [(js ++ ['\n'], true)] } := fun ls x =>
        scanLoop_input_irrelevant json ls _
          { conn with writes := conn.writes ++ [(js ++ ['\n'], true)] } x
      have hmem : ∀ (news : List (Bytes × Bool)), (∀ w ∈ news, w.2 = true) →
          ∀ w ∈ (js ++ ['\n'], true) :: news, w.2 = true := by
        intro news h w hw'
        rcases List.mem_cons.1 hw' with rfl | hw'
        · rfl
        · exact h w hw'
      rcases ih (processRequest p.yield req conn).1
          { conn with input := rest, writes := conn.writes ++ [(js ++ ['\n'], true)] } with
        ⟨h1, h2, hs, news, h3, h4⟩ | ⟨h1, pre, line, post, news, e1, e2, e3, e4, e5, e6⟩ |
        ⟨h1, pre, line, post, r, init, buf, e1, e2, e3, e4, e5, e6⟩
      · refine Or.inl ⟨h1, h2, ?_, (js ++ ['\n'], true) :: news, ?_, hmem news h4⟩
        · intro x hx
          rcases List.mem_cons.1 hx with rfl | hx
          · exact hl
          · exact hs x hx
        · rw [h3]; simp
      · refine Or.inr (Or.inl ⟨h1, l :: pre, line, post, (js ++ ['\n'], true) :: news,
          by rw [e1]; rfl, e2, ?_, e4, ?_, hmem news e6⟩)
        · intro x hx
          rcases List.mem_cons.1 hx with rfl | hx
          · exact hl
          · exact e3 x hx
        · rw [e5]; simp
      · refine Or.inr (Or.inr ⟨h1, l :: pre, line, post, r, (js ++ ['\n'], true) :: init, buf,
          by rw [e1]; rfl, e2, e3, ?_, hmem init e5, ?_⟩)
        · rw [e4]; simp
        · intro post'
          rw [List.cons_append, scanLoop_write_ok json l _ p conn req js hl hu hm hw,
            ← e6 post']
          exact (irr _ _).trans (irr _ _).symm

theorem yield_succ_mod (p : Process) (k S : Nat) :
    ((p.yield.s.idCounter + 1) % uint64Size + k + S) % uint64Size =
      (p.s.idCounter + (k + 1) + ((p.others.take 1).sum + S)) % uint64Size := by
  unfold Process.yield
  cases h : p.others with
  | nil =>
    simp only [List.take_nil, List.sum_nil]
    unfold uint64Size
    omega
  | cons n rest =>
    simp only [atomicAddUint64, List.take_succ_cons, List.take_zero, List.sum_cons,
      List.sum_nil]
    unfold uint64Size
    omega

theorem scanLoop_valid (unmarshal : Bytes → Option Request) (lines : List Bytes)
    (reqs : List Request)
    (hdec : List.Forall₂ (fun line req => unmarshal (dropCR line) = some req) lines reqs) :
    ∀ (p : Process) (conn : Conn), (∀ l ∈ lines, len l < MaxScanTokenSize) →
      (∀ k, conn.writeOk k = true) →
      ∃ resps : List Response,
        (scanLoop { Unmarshal := unmarshal, Marshal := goJSON.Marshal } lines p conn).2.1.writes
          = conn.writes ++ resps.map (fun r => (json.marshalResponse r ++ ['\n'], true)) ∧
        List.Forall₂ (fun req resp => resp.Key = req.Key ∧ resp.Value = req.Value)
          reqs resps ∧
        resps.map Response.ID = (List.range reqs.length).map (fun i =>
          (p.s.idCounter + (i + 1) + (p.others.take (i + 1)).sum) % uint64Size) ∧
        (p.s.idCounter + reqs.length + (p.others.take reqs.length).sum < uint64Size →
          List.Pairwise (fun a b => a.ID < b.ID) resps ∧
          (∀ r ∈ resps, p.s.idCounter < r.ID)) := by
  induction hdec with
  | nil =>
    intro p conn _ _
    exact ⟨[], by simp [scanLoop], .nil, by simp, fun _ => ⟨.nil, by simp⟩⟩
  | @cons line req rest reqs hu _ ih =>
    intro p conn hshort hw
    rw [scanLoop_write_ok { Unmarshal := unmarshal, Marshal := goJSON.Marshal } line rest p
      conn req (json.marshalResponse (processRequest p.yield req conn).2)
      (hshort line (List.mem_cons_self _ _)) hu rfl (hw _)]
    obtain ⟨resps, h1, h2, hids, h3⟩ := ih (processRequest p.yield req conn).1
      { conn with
        input := rest
        writes := conn.writes ++
          [(json.marshalResponse (processRequest p.yield req conn).2 ++ ['\n'], true)] }
      (fun l hl => hshort l (List.mem_cons_of_mem _ hl)) hw
    refine ⟨(processRequest p.yield req conn).2 :: resps, ?_, ?_, ?_, ?_⟩
    · rw [h1]; simp
    · exact .cons ⟨rfl, rfl⟩ h2
    · rw [List.map_cons, hids, List.length_cons, List.range_succ_eq_map, List.map_cons,
        List.map_map]
      congr 1
      · have e := yield_succ_mod p 0 0
        simp only [Nat.add_zero, Nat.mod_mod] at e
        simp only [processRequest_response]
        rw [e]
      · apply List.map_congr_left
        intro i _
        simp only [Function.comp, processRequest_idCounter, processRequest_others,
          yield_others]
        rw [yield_succ_mod p (i + 1) _, take_succ_sum p.others (i + 1)]
    · intro hno
      have e := take_succ_sum p.others reqs.length
      simp only [List.length_cons] at hno
      rw [e] at hno
      have hwf : p.s.idCounter < uint64Size := by omega
      have hyc : p.yield.s.idCounter = p.s.idCounter + (p.others.take 1).sum := by
        rw [yield_idCounter p hwf]
        exact Nat.mod_eq_of_lt (by omega)
      have hid : (p.yield.s.idCounter + 1) % uint64Size =
          p.s.idCounter + (p.others.take 1).sum + 1 := by
        rw [hyc]
        exact Nat.mod_eq_of_lt (by omega)
      obtain ⟨h4, h5⟩ := h3 (by
        rw [processRequest_idCounter, processRequest_others, yield_others, hid]
        omega)
      rw [processRequest_idCounter, hid] at h5
      refine ⟨List.pairwise_cons.2 ⟨?_, h4⟩, ?_⟩
      · intro r hr
        have := h5 r hr
        simp only [processRequest_response, hid]
        omega
      · intro r hr
        rcases List.mem_cons.1 hr with rfl | hr
        · simp only [processRequest_response, hid]; omega
        · have := h5 r hr; omega

theorem handleConnection_eq (json : JSON) (p : Process) (conn : Conn) :
    handleConnection json p conn =
      ((if (scanLoop json conn.input p conn).2.2 = .tooLong ∨
            ((scanLoop json conn.input p conn).2.2 = .endOfInput ∧
              (scanLoop json conn.input p conn).2.1.readErr = true) then
          (scanLoop json conn.input p conn).1.logf .readError
        else (scanLoop json conn.input p conn).1).yield,
       (scanLoop json conn.input p conn).2.1.Close) := by
  unfold handleConnection
  rcases scanLoop json conn.input p conn with ⟨p', c', b⟩
  cases b
  · cases h : c'.readErr <;> simp [h]
  · simp
  · simp

theorem handleConnection_s (json : JSON) (p : Process) (conn : Conn) :
    (handleConnection json p conn).1.s = (scanLoop json conn.input p conn).1.yield.s := by
  rw [handleConnection_eq]
  split
  · rw [yield_logf]; rfl
  · rfl

theorem handleConnection_conn (json : JSON) (p : Process) (conn : Conn) :
    (handleConnection json p conn).2 = (scanLoop json conn.input p conn).2.1.Close := by
  rw [handleConnection_eq]

/-! ## Lines too long for the scanner -/

theorem len_replicate_x (n : Nat) : len (List.replicate n 'x') = n := by
  induction n with
  | zero => rfl
  | succ n ih =>
    have hx : Char.utf8Size 'x' = 1 := by decide
    have e : len ('x' :: List.replicate n 'x') = Char.utf8Size 'x' + len (List.replicate n 'x') := by
      simp [len]
    rw [List.replicate_succ, e, ih, hx, Nat.add_comm]

theorem length_le_len (data : Bytes) : data.length ≤ len data := by
  induction data with
  | nil => simp [len]
  | cons c data ih =>
    have hc := c.utf8Size_pos
    have e : len (c :: data) = c.utf8Size + len data := by simp [len]
    rw [e, List.length_cons]
    omega

theorem longJunk_long : MaxScanTokenSize ≤ len longJunk := by
  unfold longJunk
  rw [len_replicate_x]

theorem len_marshalResponse (v : Response) : v.Key.length ≤ len (json.marshalResponse v) := by
  have h1 := json.length_le_appendRunes v.Key.toList
  have h2 := length_le_len (json.appendRunes v.Key.toList)
  have h3 : v.Key.toList.length = v.Key.length := rfl
  rw [json.marshalResponse_eq]
  simp only [len, List.map_cons, List.sum_cons, List.map_append, List.sum_append]
  simp only [len] at h2
  omega

theorem longRequest_long : MaxScanTokenSize ≤ len longRequest := by
  have h := len_marshalResponse
    { ID := 7, Key := String.mk (List.replicate MaxScanTokenSize 'x'), Value := "1" }
  have hl : (String.mk (List.replicate MaxScanTokenSize 'x')).length = MaxScanTokenSize :=
    List.length_replicate _ _
  rw [hl] at h
  exact h

theorem dropCR_marshalResponse (v : Response) :
    dropCR (json.marshalResponse v) = json.marshalResponse v := by
  have h : (json.marshalResponse v).getLast? = some '\x7d' := by
    unfold json.marshalResponse
    exact List.getLast?_concat _
  unfold dropCR
  rw [h, if_neg (by decide)]

theorem Unmarshal_longRequest :
    goJSON.Unmarshal (dropCR longRequest) =
      some { Key := String.mk (List.replicate MaxScanTokenSize 'x'), Value := "1" } := by
  unfold longRequest
  rw [dropCR_marshalResponse]
  simp only [goJSON]
  exact json.UnmarshalRequest_marshalResponse
    { ID := 7, Key := String.mk (List.replicate MaxScanTokenSize 'x'), Value := "1" }

/-- A healthy connection with a line of `MaxScanTokenSize` bytes or more between the two
sample requests: the first request is answered, `Scan` then returns false with
`ErrTooLong`, which is logged, and the long line and the second request stay unread. -/
theorem handleConnection_long_line (long : Bytes) (hlong : MaxScanTokenSize ≤ len long) :
    handleConnection goJSON (processAt 0) (healthyConn [lineA, long, lineB]) =
      ({ s := { cfg := { Ports := [9001, 9002] }, idCounter := 1 },
         log := [.requestReceived "a", .readError] },
       { input := [long, lineB], readErr := false, writeOk := fun _ => true,
         writes := [(json.marshalResponse { ID := 1, Key := "a", Value := "1" } ++ ['\n'],
           true)],
         closed := 1 }) := by
  have h1 := scanLoop_write_ok goJSON lineA [long, lineB] (processAt 0)
    (healthyConn [lineA, long, lineB]) reqA
    (json.marshalResponse { ID := 1, Key := "a", Value := "1" })
    (by decide) (by decide) rfl rfl
  have h2 := scanLoop_tooLong goJSON long [lineB] (processRequest (processAt 0).yield reqA
      (healthyConn [lineA, long, lineB])).1
    { healthyConn [lineA, long, lineB] with
      input := [long, lineB]
      writes := (healthyConn [lineA, long, lineB]).writes ++
        [(json.marshalResponse { ID := 1, Key := "a", Value := "1" } ++ ['\n'], true)] }
    hlong
  unfold handleConnection
  have hin : (healthyConn [lineA, long, lineB]).input = [lineA, long, lineB] := rfl
  rw [hin, h1, h2]
  rfl

theorem processRequests_ids (calls : List (Request × Conn)) :
    ∀ p : Process, p.s.idCounter + calls.length < uint64Size →
      List.Pairwise (fun a b => a < b) ((processRequests p calls).2.map Response.ID) ∧
      (∀ id ∈ (processRequests p calls).2.map Response.ID, p.s.idCounter < id) ∧
      (processRequests p calls).2.length = calls.length := by
  induction calls with
  | nil => intro p _; simp [processRequests]
  | cons call calls ih =>
    intro p hno
    obtain ⟨req, conn⟩ := call
    have hlen : p.s.idCounter + 1 + calls.length < uint64Size := by
      simp only [List.length_cons] at hno; omega
    have hid : (p.s.idCounter + 1) % uint64Size = p.s.idCounter + 1 :=
      Nat.mod_eq_of_lt (by omega)
    obtain ⟨h1, h2, h3⟩ := ih (processRequest p req conn).1
      (by rw [processRequest_idCounter, hid]; exact hlen)
    rw [processRequest_idCounter, hid] at h2
    have hunf : (processRequests p ((req, conn) :: calls)).2 =
        (processRequest p req conn).2 :: (processRequests (processRequest p req conn).1 calls).2 :=
      rfl
    rw [hunf]
    refine ⟨?_, ?_, by simp [h3]⟩
    · rw [List.map_cons]
      refine List.pairwise_cons.2 ⟨?_, h1⟩
      intro id hmem
      have := h2 id hmem
      simp only [processRequest_response, hid]
      omega
    · intro id hmem
      rw [List.map_cons] at hmem
      rcases List.mem_cons.1 hmem with rfl | hmem
      · simp only [processRequest_response, hid]; omega
      · have := h2 id hmem; omega

/-! ## The claims about the connection handler -/

/-- C1 (amended): for every sequence of lines, each shorter than the 64 KiB token limit
of the scanner, that each decode to a `Request`, handled on one connection with no
write failure, the handler writes exactly one response line per request, in the order
of the requests, and each response carries the key and value of its request. The
identifier of the `i`-th response is the value of the shared counter after the `i`-th
increment of this handler; provided the `uint64` counter does not wrap while the
connection is served (`idCounter` plus the number of requests plus the identifiers
taken meanwhile by other connections stays below `2 ^ 64`), the identifiers strictly
increase. -/
theorem handleConnection_valid_requests (unmarshal : Bytes → Option Request)
    (p : Process) (conn : Conn) (reqs : List Request)
    (hdec : List.Forall₂ (fun line req => unmarshal (dropCR line) = some req)
      conn.input reqs)
    (hshort : ∀ l ∈ conn.input, len l < MaxScanTokenSize)
    (hw : ∀ k, conn.writeOk k = true) :
    ∃ resps : List Response,
      (handleConnection { Unmarshal := unmarshal, Marshal := goJSON.Marshal } p conn).2.writes
        = conn.writes ++ resps.map (fun r => (json.marshalResponse r ++ ['\n'], true)) ∧
      List.Forall₂ (fun req resp => resp.Key = req.Key ∧ resp.Value = req.Value)
        reqs resps ∧
      resps.map Response.ID = (List.range reqs.length).map (fun i =>
        (p.s.idCounter + (i + 1) + (p.others.take (i + 1)).sum) % uint64Size) ∧
      (p.s.idCounter + reqs.length + (p.others.take reqs.length).sum < uint64Size →
        List.Pairwise (fun a b => a.ID < b.ID) resps) := by
  obtain ⟨resps, h1, h2, h3, h4⟩ :=
    scanLoop_valid unmarshal conn.input reqs hdec p conn hshort hw
  refine ⟨resps, ?_, h2, h3, fun hno => (h4 hno).1⟩
  rw [handleConnection_conn]
  exact h1

/-- Witness of C1: two valid requests on a healthy connection of a fresh server, while
another connection gets one request through in between. -/
theorem handleConnection_valid_requests_witness :
    List.Forall₂ (fun line req => goJSON.Unmarshal (dropCR line) = some req)
        (healthyConn [lineA, lineB]).input [reqA, reqB] ∧
      (∀ l ∈ (healthyConn [lineA, lineB]).input, len l < MaxScanTokenSize) ∧
      (∀ k, (healthyConn [lineA, lineB]).writeOk k = true) ∧
      processBeside.s.idCounter + [reqA, reqB].length +
        (processBeside.others.take [reqA, reqB].length).sum < uint64Size ∧
      ∃ resps : List Response,
        (handleConnection { Unmarshal := goJSON.Unmarshal, Marshal := goJSON.Marshal }
            processBeside (healthyConn [lineA, lineB])).2.writes
          = (healthyConn [lineA, lineB]).writes ++
              resps.map (fun r => (json.marshalResponse r ++ ['\n'], true)) ∧
        List.Forall₂ (fun req resp => resp.Key = req.Key ∧ resp.Value = req.Value)
          [reqA, reqB] resps ∧
        resps.map Response.ID = (List.range [reqA, reqB].length).map (fun i =>
          (processBeside.s.idCounter + (i + 1) + (processBeside.others.take (i + 1)).sum)
            % uint64Size) ∧
        (processBeside.s.idCounter + [reqA, reqB].length +
            (processBeside.others.take [reqA, reqB].length).sum < uint64Size →
          List.Pairwise (fun a b => a.ID < b.ID) resps) :=
  have hdec : List.Forall₂ (fun line req => goJSON.Unmarshal (dropCR line) = some req)
      (healthyConn [lineA, lineB]).input [reqA, reqB] :=
    .cons (by decide) (.cons (by decide) .nil)
  ⟨hdec, by decide, fun _ => rfl, by decide,
    handleConnection_valid_requests goJSON.Unmarshal processBeside
      (healthyConn [lineA, lineB]) [reqA, reqB] hdec (by decide) (fun _ => rfl)⟩

/-- Counterexample to C1 as stated. First, on a server that has issued `2 ^ 64 - 2`
identifiers, two valid requests on a healthy connection get the identifiers
`2 ^ 64 - 1` and then `0`, so the second is not greater than the first. Second, of three
valid request lines on a healthy connection, the second one longer than the token limit
of the scanner, only the first gets a response: the scanner stops at the long line. -/
theorem handleConnection_ids_wrap :
    (goJSON.Unmarshal (dropCR lineA) = some reqA ∧
      goJSON.Unmarshal (dropCR lineB) = some reqB ∧
      (handleConnection goJSON (processAt 18446744073709551614)
          (healthyConn [lineA, lineB])).2.writes =
        [(json.marshalResponse { ID := 18446744073709551615, Key := "a", Value := "1" }
            ++ ['\n'], true),
          (json.marshalResponse { ID := 0, Key := "b", Value := "2" } ++ ['\n'], true)] ∧
      (handleConnection goJSON (processAt 18446744073709551614)
          (healthyConn [lineA, lineB])).2.sent =
        ("\x7b\"id\":18446744073709551615,\"key\":\"a\",\"value\":\"1\"\x7d\n" ++
          "\x7b\"id\":0,\"key\":\"b\",\"value\":\"2\"\x7d\n").toList) ∧
    (goJSON.Unmarshal (dropCR longRequest) =
        some { Key := String.mk (List.replicate MaxScanTokenSize 'x'), Value := "1" } ∧
      MaxScanTokenSize ≤ len longRequest ∧
      (∀ k, (healthyConn [lineA, longRequest, lineB]).writeOk k = true) ∧
      (handleConnection goJSON (processAt 0)
          (healthyConn [lineA, longRequest, lineB])).2.writes =
        [(json.marshalResponse { ID := 1, Key := "a", Value := "1" } ++ ['\n'], true)] ∧
      (handleConnection goJSON (processAt 0)
          (healthyConn [lineA, longRequest, lineB])).2.input = [longRequest, lineB]) :=
  ⟨by decide,
    Unmarshal_longRequest, longRequest_long, fun _ => rfl,
    congrArg (fun r => r.2.writes) (handleConnection_long_line longRequest longRequest_long),
    congrArg (fun r => r.2.input) (handleConnection_long_line longRequest longRequest_long)⟩

theorem processRequests_state (calls : List (Request × Conn)) :
    ∀ p : Process, p.s.idCounter < uint64Size →
      (processRequests p calls).1.s =
        { p.s with idCounter := (p.s.idCounter + calls.length) % uint64Size } := by
  induction calls with
  | nil =>
    intro p hwf
    simp [processRequests, Nat.mod_eq_of_lt hwf]
  | cons call calls ih =>
    intro p hwf
    obtain ⟨req, conn⟩ := call
    have hunf : (processRequests p ((req, conn) :: calls)).1 =
        (processRequests (processRequest p req conn).1 calls).1 := rfl
    rw [hunf, ih _ (by rw [processRequest_idCounter]; exact Nat.mod_lt _ uint64Size_pos)]
    simp only [processRequest_idCounter, processRequest_cfg, List.length_cons,
      uint64_succ_add]

/-- The state `processAt n` is the state of a fresh server after `n` requests. -/
theorem processAt_reachable (n : Nat) (hn : n < uint64Size) :
    (processRequests { s := NewServer { Ports := [9001, 9002] }, log := [] }
      (List.replicate n (reqA, healthyConn []))).1.s = (processAt n).s := by
  rw [processRequests_state _ _ (by simp [NewServer, uint64Size])]
  simp [NewServer, processAt, Nat.mod_eq_of_lt hn]

/-- C3 (amended): for every server and every finite sequence of `processRequest` calls,
taken in the order of their atomic increments, that does not wrap the `uint64` counter
(`idCounter` plus the number of calls stays below `2 ^ 64`), the identifier each call
returns is strictly greater than every identifier returned earlier, so the identifiers
contain no duplicates. -/
theorem processRequests_ids_increasing (p : Process) (calls : List (Request × Conn))
    (hno : p.s.idCounter + calls.length < uint64Size) :
    List.Pairwise (fun a b => a < b) ((processRequests p calls).2.map Response.ID) ∧
    ((processRequests p calls).2.map Response.ID).Nodup := by
  have h := (processRequests_ids calls p hno).1
  exact ⟨h, h.imp (fun hab => Nat.ne_of_lt hab)⟩

/-- Witness of C3: three calls from two connections on a fresh server. -/
theorem processRequests_ids_increasing_witness :
    (processAt 0).s.idCounter +
        [(reqA, healthyConn []), (reqB, brokenConn [] 0),
          (reqA, healthyConn [])].length < uint64Size ∧
      List.Pairwise (fun a b => a < b)
        ((processRequests (processAt 0)
          [(reqA, healthyConn []), (reqB, brokenConn [] 0),
            (reqA, healthyConn [])]).2.map Response.ID) ∧
      ((processRequests (processAt 0)
          [(reqA, healthyConn []), (reqB, brokenConn [] 0),
            (reqA, healthyConn [])]).2.map Response.ID).Nodup :=
  ⟨by decide, processRequests_ids_increasing (processAt 0) _ (by decide)⟩

/-- Counterexample to C3 as stated: on a server whose counter stands at `2 ^ 64 - 2`,
two calls return `2 ^ 64 - 1` and then `0`: the later identifier is the smaller one. -/
theorem processRequests_ids_wrap :
    (processRequests (processAt 18446744073709551614)
        [(reqA, healthyConn []), (reqB, healthyConn [])]).2.map Response.ID
      = [18446744073709551615, 0] ∧
    ¬ List.Pairwise (fun a b => a < b)
      ((processRequests (processAt 18446744073709551614)
        [(reqA, healthyConn []), (reqB, healthyConn [])]).2.map Response.ID) := by
  decide

/-- C6 (amended): whatever the input lines and write outcomes, the handler ends in one
of three ways. It attempts only successful writes and reads every line, all of them
shorter than the 64 KiB token limit of the scanner (a decode or encode failure never
ends the loop). Or it attempts only successful writes and stops at the first line of
64 KiB or more, which stays unread with all that follows. Or it stops at the record
whose write is the first to fail: that record was decoded, its write is the last one
attempted, the lines after it stay unread, and the process state and the connection do
not depend on what those lines are. -/
theorem handleConnection_stops_at_write_failure (json : JSON) (p : Process) (conn : Conn) :
    ((handleConnection json p conn).2.input = [] ∧
      (∀ l ∈ conn.input, len l < MaxScanTokenSize) ∧
      ∃ news, (handleConnection json p conn).2.writes = conn.writes ++ news ∧
        ∀ w ∈ news, w.2 = true) ∨
    (∃ pre line post news,
      conn.input = pre ++ line :: post ∧ MaxScanTokenSize ≤ len line ∧
      (∀ l ∈ pre, len l < MaxScanTokenSize) ∧
      (handleConnection json p conn).2.input = line :: post ∧
      (handleConnection json p conn).2.writes = conn.writes ++ news ∧
      ∀ w ∈ news, w.2 = true) ∨
    (∃ pre line post req init buf,
      conn.input = pre ++ line :: post ∧ json.Unmarshal (dropCR line) = some req ∧
      (handleConnection json p conn).2.input = post ∧
      (handleConnection json p conn).2.writes = conn.writes ++ init ++ [(buf, false)] ∧
      (∀ w ∈ init, w.2 = true) ∧
      ∀ post', handleConnection json p { conn with input := pre ++ line :: post' } =
        ((handleConnection json p conn).1,
          { (handleConnection json p conn).2 with input := post' })) := by
  rcases scanLoop_outcome json conn.input p conn with
    ⟨_, h2, h3, news, h4, h5⟩ | ⟨_, pre, line, post, news, e1, e2, e3, e4, e5, e6⟩ |
      ⟨h1, pre, line, post, r, init, buf, e1, e2, e3, e4, e5, e6⟩
  · left
    rw [handleConnection_conn]
    exact ⟨h2, h3, news, h4, h5⟩
  · right; left
    refine ⟨pre, line, post, news, e1, e2, e3, ?_, ?_, e6⟩
    · rw [handleConnection_conn]; exact e4
    · rw [handleConnection_conn]; exact e5
  · right; right
    refine ⟨pre, line, post, r, init, buf, e1, e2, ?_, ?_, e5, ?_⟩
    · rw [handleConnection_conn]; exact e3
    · rw [handleConnection_conn]; exact e4
    · intro post'
      have hs : scanLoop json (pre ++ line :: post') p
          { conn with input := pre ++ line :: post' } =
          ((scanLoop json conn.input p conn).1,
            { (scanLoop json conn.input p conn).2.1 with input := post' }, .writeFailed) := by
        rw [scanLoop_input_irrelevant]; exact e6 post'
      rw [handleConnection_eq, handleConnection_eq]
      simp only [hs, h1]
      simp [Conn.Close]

/-- Counterexample to C6 as stated: on a healthy connection no write fails, yet the
handler stops at a line of 64 KiB: that line and the valid request after it stay
unread, and the only write attempted succeeded. -/
theorem handleConnection_stops_at_long_line :
    (∀ k, (healthyConn [lineA, longJunk, lineB]).writeOk k = true) ∧
    MaxScanTokenSize ≤ len longJunk ∧
    (handleConnection goJSON (processAt 0) (healthyConn [lineA, longJunk, lineB])).2.input =
      [longJunk, lineB] ∧
    (handleConnection goJSON (processAt 0) (healthyConn [lineA, longJunk, lineB])).2.writes =
      [(json.marshalResponse { ID := 1, Key := "a", Value := "1" } ++ ['\n'], true)] ∧
    (handleConnection goJSON (processAt 0) (healthyConn [lineA, longJunk, lineB])).1.log =
      [.requestReceived "a", .readError] :=
  ⟨fun _ => rfl, longJunk_long,
    congrArg (fun r => r.2.input) (handleConnection_long_line longJunk longJunk_long),
    congrArg (fun r => r.2.writes) (handleConnection_long_line longJunk longJunk_long),
    congrArg (fun r => r.1.log) (handleConnection_long_line longJunk longJunk_long)⟩

/-- The peer goes away after the first response: the second request is decoded and takes
identifier 2, its write fails, the third record stays unread, the connection is closed
once and the read error of the scanner is not reported. -/
theorem handleConnection_write_failure_example :
    (handleConnection goJSON (processAt 0) (brokenConn [lineA, lineB, lineA] 1)).2.writes =
      [("\x7b\"id\":1,\"key\":\"a\",\"value\":\"1\"\x7d\n".toList, true),
        ("\x7b\"id\":2,\"key\":\"b\",\"value\":\"2\"\x7d\n".toList, false)] ∧
    (handleConnection goJSON (processAt 0) (brokenConn [lineA, lineB, lineA] 1)).2.input =
      [lineA] ∧
    (handleConnection goJSON (processAt 0) (brokenConn [lineA, lineB, lineA] 1)).2.closed = 1 ∧
    (handleConnection goJSON (processAt 0) (brokenConn [lineA, lineB, lineA] 1)).1 =
      { s := { cfg := { Ports := [9001, 9002] }, idCounter := 2 },
        log := [.requestReceived "a", .requestReceived "b", .writeError] } := by
  decide

/-- With a `Marshal` that fails on every response, each decoded request still takes an
identifier and the loop goes on to the next record: nothing is written, both records
are read and the counter ends at 2. -/
theorem handleConnection_marshal_failure_example :
    (handleConnection { Unmarshal := goJSON.Unmarshal, Marshal := fun _ => none } (processAt 0)
        (healthyConn [lineA, lineB])).2.writes = [] ∧
    (handleConnection { Unmarshal := goJSON.Unmarshal, Marshal := fun _ => none } (processAt 0)
        (healthyConn [lineA, lineB])).2.input = [] ∧
    (handleConnection { Unmarshal := goJSON.Unmarshal, Marshal := fun _ => none } (processAt 0)
        (healthyConn [lineA, lineB])).1 =
      { s := { cfg := { Ports := [9001, 9002] }, idCounter := 2 },
        log := [.requestReceived "a", .marshalError, .requestReceived "b", .marshalError] } := by
  decide

/-- C7: whatever the input, the write outcomes and the way the scanner ends (end of
stream or read error), `handleConnection` returns with exactly one more `Close` call on
the connection than before. -/
theorem handleConnection_closes_once (json : JSON) (p : Process) (conn : Conn) :
    (handleConnection json p conn).2.closed = conn.closed + 1 := by
  rw [handleConnection_conn]
  simp [Conn.Close, (scanLoop_closed json conn.input p conn).1]

/-- C10 (amended): for a `uint64` counter value, over a run of `handleConnection` the
shared `idCounter` changes by the number of lines decoded among those the handler read
before the loop ended (the record whose write or encode failed included), plus the
identifiers other connections took in the meantime, modulo `2 ^ 64`. Unless that sum
reaches `2 ^ 64` the counter grows by exactly that much and does not decrease; when no
other connection takes an identifier it grows by exactly the number of decoded lines. -/
theorem handleConnection_idCounter (json : JSON) (p : Process) (conn : Conn)
    (hwf : p.s.idCounter < uint64Size) :
    ∃ consumed : List Bytes,
      conn.input = consumed ++ (handleConnection json p conn).2.input ∧
      (handleConnection json p conn).1.s.idCounter =
        (p.s.idCounter +
          (consumed.filter (fun l => (json.Unmarshal (dropCR l)).isSome)).length +
          (p.others.take
            ((consumed.filter (fun l => (json.Unmarshal (dropCR l)).isSome)).length + 1)).sum)
          % uint64Size ∧
      (p.s.idCounter +
          (consumed.filter (fun l => (json.Unmarshal (dropCR l)).isSome)).length +
          (p.others.take
            ((consumed.filter (fun l => (json.Unmarshal (dropCR l)).isSome)).length + 1)).sum
          < uint64Size →
        (handleConnection json p conn).1.s.idCounter =
          p.s.idCounter +
            (consumed.filter (fun l => (json.Unmarshal (dropCR l)).isSome)).length +
            (p.others.take
              ((consumed.filter
                (fun l => (json.Unmarshal (dropCR l)).isSome)).length + 1)).sum ∧
        p.s.idCounter ≤ (handleConnection json p conn).1.s.idCounter) ∧
      (p.others = [] →
        p.s.idCounter + (consumed.filter (fun l => (json.Unmarshal (dropCR l)).isSome)).length
          < uint64Size →
        (handleConnection json p conn).1.s.idCounter =
          p.s.idCounter +
            (consumed.filter (fun l => (json.Unmarshal (dropCR l)).isSome)).length) := by
  obtain ⟨consumed, h1, h2, h3, _⟩ := scanLoop_counter json conn.input p conn hwf
  have hfin : (handleConnection json p conn).1.s.idCounter =
      (p.s.idCounter +
        (consumed.filter (fun l => (json.Unmarshal (dropCR l)).isSome)).length +
        (p.others.take
          ((consumed.filter (fun l => (json.Unmarshal (dropCR l)).isSome)).length + 1)).sum)
        % uint64Size := by
    rw [handleConnection_s, yield_idCounter _ (by rw [h2]; exact Nat.mod_lt _ uint64Size_pos),
      h2, h3, List.take_add, List.sum_append]
    unfold uint64Size
    omega
  refine ⟨consumed, ?_, hfin, ?_, ?_⟩
  · rw [handleConnection_conn]; exact h1
  · intro hlt
    rw [hfin, Nat.mod_eq_of_lt hlt]
    exact ⟨rfl, by omega⟩
  · intro ho hlt
    rw [hfin, ho]
    simp only [List.take_nil, List.sum_nil, Nat.add_zero]
    exact Nat.mod_eq_of_lt hlt

/-- Witness of C10: the peer goes away after one response; the second request still
takes an identifier, the third record is never read. -/
theorem handleConnection_idCounter_witness :
    (processAt 5).s.idCounter < uint64Size ∧
    (handleConnection goJSON (processAt 5)
      (brokenConn [lineA, lineJunk, lineB, lineA] 1)).1.s.idCounter = 7 ∧
    (handleConnection goJSON (processAt 5)
      (brokenConn [lineA, lineJunk, lineB, lineA] 1)).2.input = [lineA] ∧
    ∃ consumed : List Bytes,
      (brokenConn [lineA, lineJunk, lineB, lineA] 1).input = consumed ++
        (handleConnection goJSON (processAt 5)
          (brokenConn [lineA, lineJunk, lineB, lineA] 1)).2.input ∧
      (handleConnection goJSON (processAt 5)
          (brokenConn [lineA, lineJunk, lineB, lineA] 1)).1.s.idCounter =
        ((processAt 5).s.idCounter +
          (consumed.filter (fun l => (goJSON.Unmarshal (dropCR l)).isSome)).length +
          ((processAt 5).others.take
            ((consumed.filter
              (fun l => (goJSON.Unmarshal (dropCR l)).isSome)).length + 1)).sum)
          % uint64Size :=
  have h := handleConnection_idCounter goJSON (processAt 5)
    (brokenConn [lineA, lineJunk, lineB, lineA] 1) (by decide)
  ⟨by decide, by decide, by decide, h.elim fun consumed hc => ⟨consumed, hc.1, hc.2.1⟩⟩

/-- Counterexample to C10 as stated. First, on a server whose counter stands at
`2 ^ 64 - 1`, one decoded line leaves the counter at `0`: it did not grow by one, it was
reset. Second, on a fresh server the handler decodes two lines while another connection
gets one request through, and the counter ends at 3, not 2. -/
theorem handleConnection_idCounter_wraps :
    ((processAt 18446744073709551615).s.idCounter = 18446744073709551615 ∧
      (handleConnection goJSON (processAt 18446744073709551615)
        (healthyConn [lineA])).1.s.idCounter = 0) ∧
    (processBeside.s.idCounter = 0 ∧
      goJSON.Unmarshal (dropCR lineA) = some reqA ∧
      goJSON.Unmarshal (dropCR lineB) = some reqB ∧
      (handleConnection goJSON processBeside (healthyConn [lineA, lineB])).2.input = [] ∧
      (handleConnection goJSON processBeside (healthyConn [lineA, lineB])).1.s.idCounter = 3) := by
  decide

/-- C2: on a fresh server whose first connection receives the request lines for
`a`/`1` and `b`/`2`, the handler writes exactly two buffers, and the bytes sent are the
response with `id` 1 and a newline followed by the response with `id` 2 and a
newline, the fields in the order `id`, `key`, `value`. -/
theorem handleConnection_fresh_scenario :
    (handleConnection goJSON { s := NewServer { Ports := [9001, 9002] }, log := [] }
        (healthyConn [lineA, lineB])).2.sent =
      ("\x7b\"id\":1,\"key\":\"a\",\"value\":\"1\"\x7d\n" ++
        "\x7b\"id\":2,\"key\":\"b\",\"value\":\"2\"\x7d\n").toList ∧
    (handleConnection goJSON { s := NewServer { Ports := [9001, 9002] }, log := [] }
        (healthyConn [lineA, lineB])).2.writes =
      [("\x7b\"id\":1,\"key\":\"a\",\"value\":\"1\"\x7d\n".toList, true),
        ("\x7b\"id\":2,\"key\":\"b\",\"value\":\"2\"\x7d\n".toList, true)] ∧
    lineA = "\x7b\"key\":\"a\",\"value\":\"1\"\x7d".toList ∧
    lineB = "\x7b\"key\":\"b\",\"value\":\"2\"\x7d".toList ∧
    (NewServer { Ports := [9001, 9002] }).idCounter = 0 := by
  decide

/-! ## The claim about the configuration -/

/-- C8 (amended): `validateConfig` accepts exactly the configurations whose list of
ports is non-empty, whatever the entries are, so every configuration `Load` returns has
a non-empty list of ports; the entries are not checked against the TCP port range. -/
theorem validateConfig_accepts_nonempty (c : config.Config) :
    (config.validateConfig c = none ↔ c.ServerConfig.Ports ≠ []) ∧
    ∀ (readFile : String → Except String Bytes)
      (yamlUnmarshal : Bytes → Except String config.Config) (filename : String),
      config.Load readFile yamlUnmarshal filename = .ok c → c.ServerConfig.Ports ≠ [] := by
  have hv : config.validateConfig c = none ↔ c.ServerConfig.Ports ≠ [] := by
    unfold config.validateConfig
    cases h : c.ServerConfig.Ports <;> simp
  refine ⟨hv, ?_⟩
  intro readFile yamlUnmarshal filename hload
  unfold config.Load at hload
  cases hr : readFile filename with
  | error e => simp [hr] at hload
  | ok data =>
    cases hy : yamlUnmarshal data with
    | error e => simp [hr, hy] at hload
    | ok c' =>
      cases hc : config.validateConfig c' with
      | some e => simp [hr, hy, hc] at hload
      | none =>
        simp [hr, hy, hc] at hload
        subst hload
        exact hv.1 hc

/-- Counterexample to C8 as stated: a configuration whose ports are `0`, `-1` and
`70000` is accepted by `validateConfig` and returned by `Load`, and none of its three
ports lies in `1..65535`. -/
theorem validateConfig_accepts_out_of_range :
    config.validateConfig { ServerConfig := { Ports := [0, -1, 70000] } } = none ∧
    config.Load (fun _ => .ok []) (fun _ => .ok { ServerConfig := { Ports := [0, -1, 70000] } })
        "config.yaml" = .ok { ServerConfig := { Ports := [0, -1, 70000] } } ∧
    ¬ ∃ port ∈ ([0, -1, 70000] : List Int), 1 ≤ port ∧ port ≤ 65535 :=
  ⟨by decide, rfl, by decide⟩

/-! ## The listeners -/

theorem set_eq_self_of_getElem? {α : Type} (l : List α) (i : Nat) (a : α)
    (h : l[i]? = some a) : l.set i a = l := by
  induction l generalizing i with
  | nil => simp
  | cons b l ih =>
    cases i with
    | zero => simp at h; simp [h]
    | succ i => simp at h; simp [ih i h]

theorem listenOnPort_port (l : Listener) (ok : Bool) : (listenOnPort l ok).port = l.port := by
  obtain ⟨port, status, bound, handled, acceptErrors⟩ := l
  cases status <;> cases ok <;> rfl

theorem acceptLoop_port (l : Listener) (ok : Bool) : (acceptLoop l ok).port = l.port := by
  obtain ⟨port, status, bound, handled, acceptErrors⟩ := l
  cases status <;> cases ok <;> rfl

theorem acceptLoop_status (l : Listener) (ok : Bool) :
    (acceptLoop l ok).status = l.status ∧ (acceptLoop l ok).bound = l.bound := by
  obtain ⟨port, status, bound, handled, acceptErrors⟩ := l
  cases status <;> cases ok <;> exact ⟨rfl, rfl⟩

theorem step_launch_nil (st : StartState) (h : st.pending = []) :
    st.step .launch = st := by
  simp [StartState.step, h]

theorem step_launch_cons (st : StartState) (port : Int) (rest : List Int)
    (h : st.pending = port :: rest) :
    st.step .launch =
      { st with
        pending := rest
        wg := st.wg + 1
        listeners := st.listeners ++
          [{ port := port, status := .started, bound := none, handled := 0,
             acceptErrors := 0 }] } := by
  simp [StartState.step, h]

theorem step_listen_enabled (st : StartState) (i : Nat) (ok : Bool) (l : Listener)
    (hi : st.listeners[i]? = some l) (hs : l.status = .started) :
    st.step (.listen i ok) =
      { st with
        listeners := st.listeners.set i (listenOnPort l ok)
        wg := if ok then st.wg else st.wg - 1
        log := st.log ++ [if ok then .listening l.port else .listenError l.port] } := by
  simp [StartState.step, hi, hs]

theorem step_listen_disabled (st : StartState) (i : Nat) (ok : Bool)
    (h : ∀ l, st.listeners[i]? = some l → l.status ≠ .started) :
    st.step (.listen i ok) = st := by
  cases hi : st.listeners[i]? with
  | none => simp [StartState.step, hi]
  | some l => simp [StartState.step, hi, h l hi]

theorem step_accept_enabled (st : StartState) (i : Nat) (ok : Bool) (l : Listener)
    (hi : st.listeners[i]? = some l) (hs : l.status = .accepting) :
    st.step (.accept i ok) =
      { st with
        listeners := st.listeners.set i (acceptLoop l ok)
        log := if ok then st.log else st.log ++ [.acceptError l.port] } := by
  simp [StartState.step, hi, hs]

theorem step_accept_disabled (st : StartState) (i : Nat) (ok : Bool)
    (h : ∀ l, st.listeners[i]? = some l → l.status ≠ .accepting) :
    st.step (.accept i ok) = st := by
  cases hi : st.listeners[i]? with
  | none => simp [StartState.step, hi]
  | some l => simp [StartState.step, hi, h l hi]

theorem step_wait_enabled (st : StartState)
    (h : st.pending = [] ∧ st.wg = 0 ∧ st.result = none) :
    st.step .wait = { st with result := some none } := by
  simp [StartState.step, h]

theorem step_wait_disabled (st : StartState)
    (h : ¬ (st.pending = [] ∧ st.wg = 0 ∧ st.result = none)) :
    st.step .wait = st := by
  unfold StartState.step
  simp only [h, if_false]

theorem getElem_of_getElem? {α : Type} (l : List α) (i : Nat) (a : α)
    (h : l[i]? = some a) : ∃ hlt : i < l.length, l[i] = a := by
  rcases Nat.lt_or_ge i l.length with hlt | hge
  · refine ⟨hlt, ?_⟩
    rw [List.getElem?_eq_getElem hlt] at h
    exact Option.some.inj h
  · rw [List.getElem?_eq_none hge] at h
    cases h

theorem step_invariant (ports : List Int) (st : StartState) (e : Event)
    (h : st.Invariant ports) : (st.step e).Invariant ports := by
  obtain ⟨hp, hl, hwg, hr, hres⟩ := h
  cases e with
  | launch =>
    cases hpend : st.pending with
    | nil => rw [step_launch_nil st hpend]; exact ⟨hp, hl, hwg, hr, hres⟩
    | cons port rest =>
      rw [step_launch_cons st port rest hpend]
      have hnone : st.result = none := by
        by_contra hne
        have := (hres hne).1
        rw [hpend] at this
        cases this
      refine ⟨?_, ?_, ?_, ?_, ?_⟩
      · simp only [List.map_append, List.map_cons, List.map_nil, List.append_assoc,
          List.singleton_append]
        rw [← hp, hpend]
      · intro l hmem
        simp only [List.mem_append, List.mem_singleton] at hmem
        rcases hmem with hmem | rfl
        · exact hl l hmem
        · simp
      · simp [hwg, List.countP_append]
      · exact Or.inl hnone
      · intro hne; exact absurd hnone hne
  | listen i ok =>
    by_cases hen : ∃ l, st.listeners[i]? = some l ∧ l.status = .started
    · obtain ⟨l, hi, hs⟩ := hen
      rw [step_listen_enabled st i ok l hi hs]
      obtain ⟨hlt, hget⟩ := getElem_of_getElem? _ _ _ hi
      have hmem : l ∈ st.listeners := hget ▸ List.getElem_mem hlt
      have hcount : 1 ≤ st.listeners.countP (fun l => l.status != .returned) :=
        List.countP_pos_iff.2 ⟨l, hmem, by simp [hs]⟩
      have hnone : st.result = none := by
        by_contra hne
        have := (hres hne).2
        omega
      refine ⟨?_, ?_, ?_, ?_, ?_⟩
      · simp only [List.map_set, listenOnPort_port]
        rw [set_eq_self_of_getElem? _ i l.port (by simp [hi])]
        exact hp
      · intro l' hmem'
        rcases List.mem_or_eq_of_mem_set hmem' with hmem' | rfl
        · exact hl l' hmem'
        · obtain ⟨port, status, bound, handled, acceptErrors⟩ := l
          simp only at hs
          subst hs
          cases ok <;> simp [listenOnPort]
      · simp only [List.countP_set _ _ _ _ hlt, hget]
        obtain ⟨port, status, bound, handled, acceptErrors⟩ := l
        simp only at hs
        subst hs
        cases ok <;> simp [listenOnPort] <;> omega
      · exact Or.inl hnone
      · intro hne; exact absurd hnone hne
    · rw [step_listen_disabled st i ok (fun l hi hs => hen ⟨l, hi, hs⟩)]
      exact ⟨hp, hl, hwg, hr, hres⟩
  | accept i ok =>
    by_cases hen : ∃ l, st.listeners[i]? = some l ∧ l.status = .accepting
    · obtain ⟨l, hi, hs⟩ := hen
      rw [step_accept_enabled st i ok l hi hs]
      obtain ⟨hlt, hget⟩ := getElem_of_getElem? _ _ _ hi
      have hmem : l ∈ st.listeners := hget ▸ List.getElem_mem hlt
      refine ⟨?_, ?_, ?_, hr, hres⟩
      · simp only [List.map_set, acceptLoop_port]
        rw [set_eq_self_of_getElem? _ i l.port (by simp [hi])]
        exact hp
      · intro l' hmem'
        rcases List.mem_or_eq_of_mem_set hmem' with hmem' | rfl
        · exact hl l' hmem'
        · rw [(acceptLoop_status l ok).1, (acceptLoop_status l ok).2]
          exact hl l hmem
      · simp only [List.countP_set _ _ _ _ hlt, hget, (acceptLoop_status l ok).1]
        have hcount : 1 ≤ st.listeners.countP (fun l => l.status != .returned) :=
          List.countP_pos_iff.2 ⟨l, hmem, by simp [hs]⟩
        simp only [hs]
        simp
        omega
    · rw [step_accept_disabled st i ok (fun l hi hs => hen ⟨l, hi, hs⟩)]
      exact ⟨hp, hl, hwg, hr, hres⟩
  | wait =>
    by_cases hc : st.pending = [] ∧ st.wg = 0 ∧ st.result = none
    · rw [step_wait_enabled st hc]
      exact ⟨hp, hl, hwg, Or.inr rfl, fun _ => ⟨hc.1, hc.2.1⟩⟩
    · rw [step_wait_disabled st hc]
      exact ⟨hp, hl, hwg, hr, hres⟩

theorem run_nil (st : StartState) : st.run [] = st := rfl

theorem run_cons (st : StartState) (e : Event) (events : List Event) :
    st.run (e :: events) = (st.step e).run events := rfl

theorem run_invariant (ports : List Int) (events : List Event) :
    ∀ st : StartState, st.Invariant ports → (st.run events).Invariant ports := by
  induction events with
  | nil => intro st h; exact h
  | cons e events ih =>
    intro st h
    rw [run_cons]
    exact ih _ (step_invariant ports st e h)

theorem Start_invariant (s : Server) : s.Start.Invariant s.cfg.Ports := by
  refine ⟨by simp [Server.Start], ?_, by simp [Server.Start], Or.inl rfl, ?_⟩
  · intro l hmem; simp [Server.Start] at hmem
  · intro hne; exact absurd rfl hne

theorem run_launch_all :
    ∀ (n : Nat) (st : StartState), st.pending.length = n →
      (st.run (List.replicate n .launch)).pending = [] ∧
      (st.run (List.replicate n .launch)).listeners.map Listener.port =
        st.listeners.map Listener.port ++ st.pending := by
  intro n
  induction n with
  | zero =>
    intro st h
    have : st.pending = [] := List.length_eq_zero.1 h
    simp [run_nil, this]
  | succ n ih =>
    intro st h
    cases hpend : st.pending with
    | nil => rw [hpend] at h; cases h
    | cons port rest =>
      rw [List.replicate_succ, run_cons, step_launch_cons st port rest hpend]
      have hlen : rest.length = n := by
        rw [hpend] at h; simpa using h
      obtain ⟨h1, h2⟩ := ih
        { st with
          pending := rest
          wg := st.wg + 1
          listeners := st.listeners ++
            [{ port := port, status := .started, bound := none, handled := 0,
               acceptErrors := 0 }] } hlen
      exact ⟨h1, by rw [h2]; simp⟩

theorem step_accept_status (st : StartState) (i : Nat) (ok : Bool) :
    (st.step (.accept i ok)).listeners.map Listener.status =
      st.listeners.map Listener.status := by
  by_cases hen : ∃ l, st.listeners[i]? = some l ∧ l.status = .accepting
  · obtain ⟨l, hi, hs⟩ := hen
    rw [step_accept_enabled st i ok l hi hs]
    simp only [List.map_set, (acceptLoop_status l ok).1]
    exact set_eq_self_of_getElem? _ i l.status (by simp [hi])
  · rw [step_accept_disabled st i ok (fun l hi hs => hen ⟨l, hi, hs⟩)]

/-- Two states that agree on the loop of `Start` and on goroutine `j`. -/
theorem step_concerns (j : Nat) (st st' : StartState) (e : Event)
    (he : e.concerns j = true)
    (h : st.pending = st'.pending ∧ st.listeners.length = st'.listeners.length ∧
      st.listeners[j]? = st'.listeners[j]?) :
    (st.step e).pending = (st'.step e).pending ∧
    (st.step e).listeners.length = (st'.step e).listeners.length ∧
    (st.step e).listeners[j]? = (st'.step e).listeners[j]? := by
  obtain ⟨hp, hlen, hj⟩ := h
  cases e with
  | launch =>
    cases hpend : st.pending with
    | nil =>
      rw [step_launch_nil st hpend, step_launch_nil st' (hp ▸ hpend)]
      exact ⟨hp, hlen, hj⟩
    | cons port rest =>
      rw [step_launch_cons st port rest hpend, step_launch_cons st' port rest (hp ▸ hpend)]
      refine ⟨rfl, by simp [hlen], ?_⟩
      simp only [List.getElem?_append, hlen, hj]
  | listen i ok =>
    have hij : i = j := by simpa [Event.concerns] using he
    subst hij
    by_cases hen : ∃ l, st.listeners[i]? = some l ∧ l.status = .started
    · obtain ⟨l, hi, hs⟩ := hen
      rw [step_listen_enabled st i ok l hi hs,
        step_listen_enabled st' i ok l (hj ▸ hi) hs]
      refine ⟨hp, by simp [hlen], ?_⟩
      simp only [List.getElem?_set, hlen, if_true]
    · rw [step_listen_disabled st i ok (fun l hi hs => hen ⟨l, hi, hs⟩),
        step_listen_disabled st' i ok (fun l hi hs => hen ⟨l, hj ▸ hi, hs⟩)]
      exact ⟨hp, hlen, hj⟩
  | accept i ok =>
    have hij : i = j := by simpa [Event.concerns] using he
    subst hij
    by_cases hen : ∃ l, st.listeners[i]? = some l ∧ l.status = .accepting
    · obtain ⟨l, hi, hs⟩ := hen
      rw [step_accept_enabled st i ok l hi hs,
        step_accept_enabled st' i ok l (hj ▸ hi) hs]
      refine ⟨hp, by simp [hlen], ?_⟩
      simp only [List.getElem?_set, hlen, if_true]
    · rw [step_accept_disabled st i ok (fun l hi hs => hen ⟨l, hi, hs⟩),
        step_accept_disabled st' i ok (fun l hi hs => hen ⟨l, hj ▸ hi, hs⟩)]
      exact ⟨hp, hlen, hj⟩
  | wait =>
    have hw : ∀ t : StartState, (t.step .wait).pending = t.pending ∧
        (t.step .wait).listeners = t.listeners := by
      intro t
      by_cases hc : t.pending = [] ∧ t.wg = 0 ∧ t.result = none
      · rw [step_wait_enabled t hc]; exact ⟨rfl, rfl⟩
      · rw [step_wait_disabled t hc]; exact ⟨rfl, rfl⟩
    rw [(hw st).1, (hw st').1, (hw st).2, (hw st').2]
    exact ⟨hp, hlen, hj⟩

theorem step_other (j : Nat) (st : StartState) (e : Event) (he : e.concerns j = false) :
    (st.step e).pending = st.pending ∧
    (st.step e).listeners.length = st.listeners.length ∧
    (st.step e).listeners[j]? = st.listeners[j]? := by
  cases e with
  | launch => simp [Event.concerns] at he
  | wait => simp [Event.concerns] at he
  | listen i ok =>
    have hij : i ≠ j := by simpa [Event.concerns] using he
    by_cases hen : ∃ l, st.listeners[i]? = some l ∧ l.status = .started
    · obtain ⟨l, hi, hs⟩ := hen
      rw [step_listen_enabled st i ok l hi hs]
      exact ⟨rfl, by simp, by simp [List.getElem?_set_ne hij]⟩
    · rw [step_listen_disabled st i ok (fun l hi hs => hen ⟨l, hi, hs⟩)]
      exact ⟨rfl, rfl, rfl⟩
  | accept i ok =>
    have hij : i ≠ j := by simpa [Event.concerns] using he
    by_cases hen : ∃ l, st.listeners[i]? = some l ∧ l.status = .accepting
    · obtain ⟨l, hi, hs⟩ := hen
      rw [step_accept_enabled st i ok l hi hs]
      exact ⟨rfl, by simp, by simp [List.getElem?_set_ne hij]⟩
    · rw [step_accept_disabled st i ok (fun l hi hs => hen ⟨l, hi, hs⟩)]
      exact ⟨rfl, rfl, rfl⟩

theorem run_independent (j : Nat) (events : List Event) :
    ∀ st st' : StartState,
      st.pending = st'.pending ∧ st.listeners.length = st'.listeners.length ∧
        st.listeners[j]? = st'.listeners[j]? →
      (st.run events).listeners[j]? =
        (st'.run (events.filter (Event.concerns j))).listeners[j]? := by
  induction events with
  | nil => intro st st' h; exact h.2.2
  | cons e events ih =>
    intro st st' h
    cases he : e.concerns j with
    | true =>
      rw [List.filter_cons_of_pos he, run_cons, run_cons]
      exact ih _ _ (step_concerns j st st' e he h)
    | false =>
      rw [List.filter_cons_of_neg (by simp [he]), run_cons]
      obtain ⟨h1, h2, h3⟩ := step_other j st e he
      exact ih _ _ ⟨h1.trans h.1, h2.trans h.2.1, h3.trans h.2.2⟩

theorem listenOnPort_status (l : Listener) (ok : Bool) (hs : l.status = .started) :
    (listenOnPort l ok).status = if ok then .accepting else .returned := by
  obtain ⟨port, status, bound, handled, acceptErrors⟩ := l
  cases hs
  cases ok <;> rfl

theorem started_ne_bind_status (ok : Bool) :
    ListenerStatus.started ≠ if ok then .accepting else .returned := by
  cases ok <;> decide

theorem bind_status_inj (ok ok' : Bool)
    (h : (if ok' then ListenerStatus.accepting else ListenerStatus.returned) =
      if ok then .accepting else .returned) : ok' = ok := by
  cases ok <;> cases ok' <;> first | rfl | cases h

/-- One move of the system makes listener `j` leave `listenOnPort` with an error, or
enter its accept loop, exactly when the move is the bind of listener `j` itself, with
the matching outcome. -/
theorem step_bind_status (st : StartState) (e : Event) (j : Nat) (ok : Bool) :
    (∃ l, (st.step e).listeners[j]? = some l ∧
        l.status = if ok then .accepting else .returned) ↔
      (∃ l, st.listeners[j]? = some l ∧ l.status = if ok then .accepting else .returned) ∨
      (e = .listen j ok ∧ ∃ l0, st.listeners[j]? = some l0 ∧ l0.status = .started) := by
  cases e with
  | launch =>
    cases hpend : st.pending with
    | nil =>
      rw [step_launch_nil st hpend]
      exact ⟨Or.inl, fun h => h.elim id (fun h => nomatch h.1)⟩
    | cons port rest =>
      rw [step_launch_cons st port rest hpend]
      constructor
      · rintro ⟨l, hl, hs⟩
        left
        rcases Nat.lt_or_ge j st.listeners.length with hj | hj
        · exact ⟨l, by rw [← hl]; exact (List.getElem?_append_left hj).symm, hs⟩
        · exfalso
          have hl' :
              [({ port := port, status := .started, bound := none, handled := 0,
                  acceptErrors := 0 } : Listener)][j - st.listeners.length]? = some l := by
            rw [← hl]; exact (List.getElem?_append_right hj).symm
          cases hk : j - st.listeners.length with
          | zero =>
            rw [hk] at hl'
            have : l.status = .started := by
              simp only [List.getElem?_cons_zero, Option.some.injEq] at hl'
              rw [← hl']
            exact started_ne_bind_status ok (this ▸ hs)
          | succ k => rw [hk] at hl'; simp at hl'
      · rintro (⟨l, hl, hs⟩ | ⟨he, _⟩)
        · obtain ⟨hlt, _⟩ := getElem_of_getElem? _ _ _ hl
          exact ⟨l, by rw [← hl]; exact List.getElem?_append_left hlt, hs⟩
        · cases he
  | listen i ok' =>
    by_cases hen : ∃ l, st.listeners[i]? = some l ∧ l.status = .started
    · obtain ⟨l0, hi, hs0⟩ := hen
      rw [step_listen_enabled st i ok' l0 hi hs0]
      obtain ⟨hlt, _⟩ := getElem_of_getElem? _ _ _ hi
      by_cases hij : i = j
      · subst hij
        have hget : (st.listeners.set i (listenOnPort l0 ok'))[i]? =
            some (listenOnPort l0 ok') := by
          simp [List.getElem?_set, hlt]
        constructor
        · rintro ⟨l, hl, hs⟩
          right
          have hl' : l = listenOnPort l0 ok' := by
            have := hget.symm.trans hl
            exact (Option.some.inj this).symm
          rw [hl', listenOnPort_status l0 ok' hs0] at hs
          rw [bind_status_inj ok ok' hs]
          exact ⟨rfl, l0, hi, hs0⟩
        · rintro (⟨l, hl, hs⟩ | ⟨he, _⟩)
          · exfalso
            have : l = l0 := Option.some.inj (hl.symm.trans hi)
            rw [this, hs0] at hs
            exact started_ne_bind_status ok hs
          · have hok : ok' = ok := by injection he
            subst hok
            exact ⟨listenOnPort l0 ok', hget, listenOnPort_status l0 ok' hs0⟩
      · have hget : (st.listeners.set i (listenOnPort l0 ok'))[j]? = st.listeners[j]? :=
          List.getElem?_set_ne hij
        constructor
        · rintro ⟨l, hl, hs⟩
          exact Or.inl ⟨l, hget ▸ hl, hs⟩
        · rintro (⟨l, hl, hs⟩ | ⟨he, _⟩)
          · exact ⟨l, hget.trans hl, hs⟩
          · exfalso
            have : i = j := by injection he
            exact hij this
    · rw [step_listen_disabled st i ok' (fun l hi hs => hen ⟨l, hi, hs⟩)]
      constructor
      · exact Or.inl
      · rintro (h | ⟨he, l0, hi, hs0⟩)
        · exact h
        · exfalso
          have hij : i = j := by injection he
          subst hij
          exact hen ⟨l0, hi, hs0⟩
  | accept i ok' =>
    by_cases hen : ∃ l, st.listeners[i]? = some l ∧ l.status = .accepting
    · obtain ⟨l0, hi, hs0⟩ := hen
      rw [step_accept_enabled st i ok' l0 hi hs0]
      obtain ⟨hlt, _⟩ := getElem_of_getElem? _ _ _ hi
      by_cases hij : i = j
      · subst hij
        have hget : (st.listeners.set i (acceptLoop l0 ok'))[i]? =
            some (acceptLoop l0 ok') := by
          simp [List.getElem?_set, hlt]
        constructor
        · rintro ⟨l, hl, hs⟩
          left
          have hl' : l = acceptLoop l0 ok' :=
            (Option.some.inj (hget.symm.trans hl)).symm
          rw [hl', (acceptLoop_status l0 ok').1] at hs
          exact ⟨l0, hi, hs⟩
        · rintro (⟨l, hl, hs⟩ | ⟨he, _⟩)
          · have : l = l0 := Option.some.inj (hl.symm.trans hi)
            rw [this] at hs
            exact ⟨acceptLoop l0 ok', hget, by rw [(acceptLoop_status l0 ok').1]; exact hs⟩
          · cases he
      · have hget : (st.listeners.set i (acceptLoop l0 ok'))[j]? = st.listeners[j]? :=
          List.getElem?_set_ne hij
        constructor
        · rintro ⟨l, hl, hs⟩
          exact Or.inl ⟨l, hget ▸ hl, hs⟩
        · rintro (⟨l, hl, hs⟩ | ⟨he, _⟩)
          · exact ⟨l, hget.trans hl, hs⟩
          · cases he
    · rw [step_accept_disabled st i ok' (fun l hi hs => hen ⟨l, hi, hs⟩)]
      exact ⟨Or.inl, fun h => h.elim id (fun h => nomatch h.1)⟩
  | wait =>
    by_cases h : st.pending = [] ∧ st.wg = 0 ∧ st.result = none
    · rw [step_wait_enabled st h]
      exact ⟨Or.inl, fun h => h.elim id (fun h => nomatch h.1)⟩
    · rw [step_wait_disabled st h]
      exact ⟨Or.inl, fun h => h.elim id (fun h => nomatch h.1)⟩

theorem run_append (st : StartState) (a b : List Event) :
    st.run (a ++ b) = (st.run a).run b := by
  unfold StartState.run
  exact List.foldl_append _ _ _ _

/-- After any run, listener `j` has left `listenOnPort` with an error, or is in its
accept loop, exactly when it already was at the start or the run holds a bind of
listener `j` itself with the matching outcome, made while the listener had not yet
bound. -/
theorem run_bind_status (st0 : StartState) (j : Nat) (ok : Bool) (events : List Event) :
    (∃ l, (st0.run events).listeners[j]? = some l ∧
        l.status = if ok then .accepting else .returned) ↔
      (∃ l, st0.listeners[j]? = some l ∧ l.status = if ok then .accepting else .returned) ∨
      ∃ ev1 ev2 l0, events = ev1 ++ .listen j ok :: ev2 ∧
        (st0.run ev1).listeners[j]? = some l0 ∧ l0.status = .started := by
  induction events using List.reverseRecOn with
  | nil =>
    rw [run_nil]
    constructor
    · exact Or.inl
    · rintro (h | ⟨ev1, ev2, _, he, _⟩)
      · exact h
      · cases ev1 <;> cases he
  | append_singleton evs e ih =>
    have hrun : st0.run (evs ++ [e]) = (st0.run evs).step e := by
      rw [run_append]; rfl
    rw [hrun, step_bind_status, ih]
    constructor
    · rintro ((h | ⟨ev1, ev2, l0, he, hl, hs⟩) | ⟨he, l0, hl, hs⟩)
      · exact Or.inl h
      · exact Or.inr ⟨ev1, ev2 ++ [e], l0, by rw [he]; simp, hl, hs⟩
      · exact Or.inr ⟨evs, [], l0, by rw [he], hl, hs⟩
    · rintro (h | ⟨ev1, ev2, l0, he, hl, hs⟩)
      · exact Or.inl (Or.inl h)
      · rcases List.eq_nil_or_concat ev2 with rfl | ⟨ev2', e', rfl⟩
        · right
          have := List.append_inj' he rfl
          obtain ⟨h1, h2⟩ := this
          have h3 : e = .listen j ok := by injection h2
          subst h1
          exact ⟨h3, l0, hl, hs⟩
        · left; right
          have he' : evs ++ [e] = (ev1 ++ .listen j ok :: ev2') ++ [e'] := by
            rw [he]; simp
          obtain ⟨h1, _⟩ := List.append_inj' he' rfl
          exact ⟨ev1, ev2', l0, h1, hl, hs⟩

/-- Two configured ports, the bind of the first fails and the bind of the second
succeeds: the first listener has returned, the second is in its accept loop and has
handed one connection to a handler, one accept has failed without ending the loop, and
`Start` has not returned. -/
theorem Start_bind_failure_example :
    ((NewServer { Ports := [9001, 9002] }).Start.run
        [.launch, .launch, .listen 0 false, .listen 1 true, .accept 1 true,
          .accept 1 false, .accept 0 true, .wait]) =
      { pending := []
        listeners :=
          [{ port := 9001, status := .returned, bound := some false, handled := 0,
             acceptErrors := 0 },
           { port := 9002, status := .accepting, bound := some true, handled := 1,
             acceptErrors := 1 }]
        wg := 1
        result := none
        log := [.listenError 9001, .listening 9002, .acceptError 9002] } := by
  decide

/-- C9: whatever the scheduler and the operating system do (`events`: any order of
moves, any bind and accept outcomes), `Start` launches `listenOnPort` once for each
configured port, in order, and letting its loop finish from any reachable state
yields exactly the configured ports; a listener has returned from `listenOnPort` exactly
when the run holds a failed bind of that listener, and is in its accept loop exactly
when the run holds a successful bind of that listener, the bind made while it had not
yet bound; the recorded bind outcome agrees with the status; an accept outcome changes
no listener's status; the state of listener `j` is the one it has when the moves of all
other listeners are removed from the run; `Start` returns nothing but `nil`, and only
after every port was launched and every listener returned. -/
theorem Start_listeners (s : Server) (events : List Event) :
    (s.Start.run events).listeners.map Listener.port ++ (s.Start.run events).pending
      = s.cfg.Ports ∧
    ((s.Start.run events).run
        (List.replicate (s.Start.run events).pending.length .launch)).listeners.map
      Listener.port = s.cfg.Ports ∧
    (∀ j, (∃ l, (s.Start.run events).listeners[j]? = some l ∧ l.status = .returned) ↔
      ∃ ev1 ev2 l0, events = ev1 ++ .listen j false :: ev2 ∧
        (s.Start.run ev1).listeners[j]? = some l0 ∧ l0.status = .started) ∧
    (∀ j, (∃ l, (s.Start.run events).listeners[j]? = some l ∧ l.status = .accepting) ↔
      ∃ ev1 ev2 l0, events = ev1 ++ .listen j true :: ev2 ∧
        (s.Start.run ev1).listeners[j]? = some l0 ∧ l0.status = .started) ∧
    (∀ l ∈ (s.Start.run events).listeners,
      (l.status = .returned ↔ l.bound = some false) ∧
      (l.status = .accepting ↔ l.bound = some true)) ∧
    (∀ i ok, ((s.Start.run events).step (.accept i ok)).listeners.map Listener.status =
      (s.Start.run events).listeners.map Listener.status) ∧
    (∀ j, (s.Start.run events).listeners[j]? =
      (s.Start.run (events.filter (Event.concerns j))).listeners[j]?) ∧
    ((s.Start.run events).result = none ∨ (s.Start.run events).result = some none) ∧
    ((s.Start.run events).result ≠ none →
      (s.Start.run events).pending = [] ∧
      ∀ l ∈ (s.Start.run events).listeners, l.status = .returned) := by
  obtain ⟨hp, hl, hwg, hr, hres⟩ := run_invariant s.cfg.Ports events s.Start (Start_invariant s)
  have hbind : ∀ (j : Nat) (ok : Bool),
      (∃ l, (s.Start.run events).listeners[j]? = some l ∧
          l.status = if ok then .accepting else .returned) ↔
        ∃ ev1 ev2 l0, events = ev1 ++ .listen j ok :: ev2 ∧
          (s.Start.run ev1).listeners[j]? = some l0 ∧ l0.status = .started := by
    intro j ok
    rw [run_bind_status]
    constructor
    · rintro (⟨l, h, _⟩ | h)
      · simp [Server.Start] at h
      · exact h
    · exact Or.inr
  refine ⟨hp, ?_, fun j => hbind j false, fun j => hbind j true, hl, ?_, ?_, hr, ?_⟩
  · rw [(run_launch_all _ (s.Start.run events) rfl).2]
    exact hp
  · intro i ok
    exact step_accept_status _ i ok
  · intro j
    exact run_independent j events s.Start s.Start ⟨rfl, rfl, rfl⟩
  · intro hne
    obtain ⟨h1, h2⟩ := hres hne
    refine ⟨h1, ?_⟩
    intro l hmem
    rw [h2] at hwg
    have := (List.countP_eq_zero.1 hwg.symm) l hmem
    simpa using this

end TcpServer
